import Mathlib

/-!
Verification of the record-normalization and search subsystem of the SMS
viewer. The TypeScript sources are shallowly embedded: JS strings become
Lean strings (lists of characters), JS Date values are represented by the
integer returned by getTime (millisecond epoch), JS Map objects become
insertion-ordered association lists, and possibly-NaN numbers (parseInt
results) become Option Int. Regular expressions used by the source are
implemented character by character with the same greedy/backtracking
semantics on the inputs the program feeds them.
-/

namespace BroSms

/-! ### JavaScript string primitives -/

/-- Character class of the JS regex whitespace \s and of String.trim. -/
def jsWhitespace (c : Char) : Bool :=
  c = ' ' || c = '\t' || c = '\n' || c = '\r' ||
  c = '\u000B' || c = '\u000C' || c = '\u00A0' || c = '\u1680' ||
  (0x2000 ≤ c.toNat && c.toNat ≤ 0x200A) ||
  c = '\u2028' || c = '\u2029' || c = '\u202F' || c = '\u205F' ||
  c = '\u3000' || c = '\uFEFF'

/-- Line terminators, which the JS regex dot does not match. -/
def isLineTerm (c : Char) : Bool :=
  c = '\n' || c = '\r' || c = '\u2028' || c = '\u2029'

/-- JS String.prototype.toLowerCase (ASCII case mapping suffices for the
corpus and queries handled here). -/
def jsToLower (s : String) : String :=
  String.mk (s.data.map Char.toLower)

/-- JS String.prototype.trim on a character list. -/
def trimList (l : List Char) : List Char :=
  ((l.dropWhile jsWhitespace).reverse.dropWhile jsWhitespace).reverse

/-- JS String.prototype.trim. -/
def jsTrim (s : String) : String :=
  String.mk (trimList s.data)

/-- JS String.prototype.includes, on character lists. -/
def listContains (hay pat : List Char) : Bool :=
  match hay with
  | [] => decide (pat = [])
  | _ :: t => pat.isPrefixOf hay || listContains t pat

/-- JS String.prototype.includes. -/
def jsIncludes (s sub : String) : Bool :=
  listContains s.data sub.data

/-- JS String.prototype.indexOf (none plays the role of -1). -/
def firstIndexOf (hay pat : List Char) : Option Nat :=
  match hay with
  | [] => if pat = [] then some 0 else none
  | _ :: t =>
    if pat.isPrefixOf hay then some 0
    else (firstIndexOf t pat).map (· + 1)

/-- Value of a run of decimal digit characters. -/
def digitsToNat (ds : List Char) : Nat :=
  ds.foldl (fun acc c => acc * 10 + (c.toNat - '0'.toNat)) 0

/-- JS parseInt on the decimal strings this program feeds it: leading
whitespace, an optional sign, then leading decimal digits; none models NaN. -/
def parseIntJs (s : String) : Option Int :=
  let l := s.data.dropWhile jsWhitespace
  let signed : Int × List Char :=
    match l with
    | '-' :: r => (-1, r)
    | '+' :: r => (1, r)
    | r => (1, r)
  let ds := signed.2.takeWhile Char.isDigit
  if ds = [] then none
  else some (signed.1 * (digitsToNat ds : Int))

/-! ### Phone normalizer (src/utils/phoneUtils.ts, normalizePhoneNumber) -/

/-- Branching of normalizePhoneNumber on the already-cleaned digit list. -/
def normalizeCleaned (cleaned : List Char) : List Char :=
  if ['9', '6', '0'].isPrefixOf cleaned then
    cleaned
  else if cleaned.length = 7 ∧ cleaned.all Char.isDigit then
    ['9', '6', '0'] ++ cleaned
  else if cleaned.head? = some '0' then
    ['9', '6', '0'] ++ cleaned.drop 1
  else if 10 ≤ cleaned.length then
    cleaned
  else if cleaned.length = 7 then
    ['9', '6', '0'] ++ cleaned
  else
    cleaned

/-- normalizePhoneNumber: strip non-digits, then apply the country-code
heuristics in source order. -/
def normalizePhoneNumber (phone : String) : String :=
  if phone = "" then ""
  else String.mk (normalizeCleaned (phone.data.filter Char.isDigit))

/-! ### Search worker (search.worker.ts) -/

structure SearchIndexItem where
  contactId : String
  text : String
deriving DecidableEq, Repr

/-- The init branch of the worker: store the corpus with the text lowercased. -/
def initIndex (searchIndex : List SearchIndexItem) : List SearchIndexItem :=
  searchIndex.map fun it => { contactId := it.contactId, text := jsToLower it.text }

/-- The search branch of the worker: lowercase and trim the query, return
the empty list for a blank query, otherwise collect the contactIds whose
stored text includes the query. -/
def searchExec (index : List SearchIndexItem) (query : String) : List String :=
  let lowerQuery := jsTrim (jsToLower query)
  if lowerQuery = "" then []
  else
    (index.filter fun it => listContains it.text.data lowerQuery.data).map
      (fun it => it.contactId)

/-! ### Data model (src/types/index.ts) -/

inductive MessageStatus
  | sent
  | delivered
  | read
  | failed
deriving DecidableEq, Repr

/-- Legacy SMS record. The nested party and time objects are flattened; a
missing string field is modelled by the empty string (both are falsy in JS);
the time.date and time.time strings are replaced by the epoch value the
legacy date parse produces for them. -/
structure SMSRecord where
  id : Int
  direction : String
  phone : String
  name : String
  timestamp : Int
  status : String
  message : String
deriving DecidableEq, Repr

/-- Unified-format record. recType models the Type field (Type is a Lean
keyword); Timestamp carries the epoch value parseNewTimestamp produces for
the timestamp string. -/
structure DataRecord where
  ID : String
  recType : String
  Direction : String
  Timestamp : Int
  Party : String
  Description : String
deriving DecidableEq, Repr

inductive UnifiedRecord
  | legacy (r : SMSRecord)
  | data (r : DataRecord)
deriving DecidableEq, Repr

structure Contact where
  phone : String
  name : String
  normalizedPhone : String
  lastMessage : String
  lastMessageTime : Int
  messageCount : Nat
  isRead : Bool
deriving DecidableEq, Repr

structure Message where
  id : Option Int
  text : String
  timestamp : Int
  isFromMe : Bool
  isRead : Bool
  status : MessageStatus
  isCallLog : Bool
deriving DecidableEq, Repr

/-! ### Status mapping (messageUtils.ts, mapSMSStatusToMessageStatus) -/

def mapSMSStatusToMessageStatus (smsStatus : String) (isFromMe : Bool) :
    MessageStatus :=
  let normalizedStatus := jsToLower smsStatus
  if !isFromMe then
    if normalizedStatus = "read" then MessageStatus.read
    else if normalizedStatus = "unread" then MessageStatus.delivered
    else MessageStatus.delivered
  else
    if normalizedStatus = "sent" then MessageStatus.delivered
    else if normalizedStatus = "read" then MessageStatus.read
    else if normalizedStatus = "unsent" ∨ normalizedStatus = "failed" ∨
            normalizedStatus = "error" then MessageStatus.failed
    else MessageStatus.sent

/-! ### Party extraction (messageUtils.ts, extractPhoneFromParty)

The source matches the Party string against four regexes. Each is
implemented here with JS semantics: leftmost match, greedy quantifiers with
backtracking, the dot not matching line terminators. -/

/-- The tail of the regex (?:From:|To:)\s*(.+) applied at one position:
greedy \s*, then the capture (.+) takes the maximal run of
non-line-terminator characters, backtracking the \s* when needed. -/
def wsStarDotPlus : List Char → Option (List Char)
  | [] => none
  | c :: cs =>
    if jsWhitespace c then
      match wsStarDotPlus cs with
      | some cap => some cap
      | none =>
        if isLineTerm c then none
        else some ((c :: cs).takeWhile fun x => !isLineTerm x)
    else
      if isLineTerm c then none
      else some ((c :: cs).takeWhile fun x => !isLineTerm x)

/-- Try (?:From:|To:)\s*(.+) anchored at the current position. -/
def tryMarkerHere (s : List Char) : Option (List Char) :=
  if ['F', 'r', 'o', 'm', ':'].isPrefixOf s then wsStarDotPlus (s.drop 5)
  else if ['T', 'o', ':'].isPrefixOf s then wsStarDotPlus (s.drop 3)
  else none

/-- Unanchored search of (?:From:|To:)\s*(.+): first position whose
anchored match succeeds wins. -/
def findMarkerCapture : List Char → Option (List Char)
  | [] => none
  | c :: cs =>
    match tryMarkerHere (c :: cs) with
    | some cap => some cap
    | none => findMarkerCapture cs

/-- The tail \s+(.+)$ of the phone-name regex, applied after the digit run:
at least one whitespace, then the capture must reach the end of the string
without crossing a line terminator (greedy \s with backtracking). -/
def wsStarDotPlusEnd : List Char → Option (List Char)
  | [] => none
  | c :: cs =>
    if jsWhitespace c then
      match wsStarDotPlusEnd cs with
      | some cap => some cap
      | none =>
        if !isLineTerm c ∧ (c :: cs).all (fun x => !isLineTerm x) then
          some (c :: cs)
        else none
    else
      if (c :: cs).all (fun x => !isLineTerm x) then some (c :: cs)
      else none

/-- The regex /^(\+?\d+)\s+(.+)$/ : optional plus, a digit run, whitespace,
then a captured remainder reaching the end. -/
def phoneNameMatch (content : List Char) : Option (List Char × List Char) :=
  let afterPlus : List Char × List Char :=
    match content with
    | '+' :: r => (['+'], r)
    | r => ([], r)
  let ds := afterPlus.2.takeWhile Char.isDigit
  let rest := afterPlus.2.dropWhile Char.isDigit
  if ds = [] then none
  else
    match rest with
    | [] => none
    | c :: cs =>
      if jsWhitespace c then
        (wsStarDotPlusEnd cs).map fun cap => (afterPlus.1 ++ ds, cap)
      else none

/-- The regex /^\+?\d+$/ . -/
def isBarePhone (content : List Char) : Bool :=
  let rest : List Char :=
    match content with
    | '+' :: r => r
    | r => r
  !rest.isEmpty && rest.all Char.isDigit

/-- The regex /(\+?\d{7,15})/ : leftmost occurrence of an optional plus
followed by 7 to 15 digits (greedy). -/
def findPhoneRun : List Char → Option (List Char)
  | [] => none
  | c :: cs =>
    if c = '+' ∧ 7 ≤ (cs.takeWhile Char.isDigit).length then
      some ('+' :: (cs.takeWhile Char.isDigit).take 15)
    else if c.isDigit ∧ 7 ≤ ((c :: cs).takeWhile Char.isDigit).length then
      some (((c :: cs).takeWhile Char.isDigit).take 15)
    else findPhoneRun cs

/-- JS String.prototype.replace with a plain string pattern: replace the
first occurrence (here always by the empty string, as in the source). -/
def replaceFirst : List Char → List Char → List Char
  | [], _ => []
  | c :: cs, pat =>
    if pat.isPrefixOf (c :: cs) then (c :: cs).drop pat.length
    else c :: replaceFirst cs pat

/-- extractPhoneFromParty: parse the Party field into a phone and a name,
or none when the record must be skipped. -/
def extractPhoneFromParty (party : String) : Option (String × String) :=
  if party = "" then none
  else
    match findMarkerCapture party.data with
    | none => none
    | some cap =>
      let partyContent := trimList cap
      match phoneNameMatch partyContent with
      | some pn => some (String.mk pn.1, String.mk (trimList pn.2))
      | none =>
        if isBarePhone partyContent then
          some (String.mk partyContent, "Unknown")
        else
          match findPhoneRun partyContent with
          | some phone =>
            let name := trimList (replaceFirst partyContent phone)
            some (String.mk phone,
                  if name = [] then "Unknown" else String.mk name)
          | none => none

/-- The test /^From:\s*$/i on the trimmed Party. -/
def hasEmptyFromTest (s : String) : Bool :=
  let ls := s.data.map Char.toLower
  ['f', 'r', 'o', 'm', ':'].isPrefixOf ls && (ls.drop 5).all jsWhitespace

/-- The test /^To:\s*$/i on the trimmed Party. -/
def hasEmptyToTest (s : String) : Bool :=
  let ls := s.data.map Char.toLower
  ['t', 'o', ':'].isPrefixOf ls && (ls.drop 3).all jsWhitespace

/-! ### JS Map as an insertion-ordered association list -/

/-- Map.prototype.get. -/
def mget (m : List (String × α)) (k : String) : Option α :=
  (m.find? fun p => p.1 == k).map Prod.snd

/-- Map.prototype.set: replace in place when the key is present (JS Maps
keep the original insertion position), append otherwise. -/
def mset (m : List (String × α)) (k : String) (v : α) : List (String × α) :=
  if m.any fun p => p.1 == k then
    m.map fun p => if p.1 == k then (k, v) else p
  else m ++ [(k, v)]

/-- The keys of the map, in insertion order. -/
def mkeys (m : List (String × α)) : List String :=
  m.map Prod.fst

/-! ### Aggregator (messageUtils.ts, processMessagesData) -/

/-- Mutable state of the forEach loop over the records. -/
structure AggState where
  contactsMap : List (String × Contact)
  messagesByContact : List (String × List Message)
  searchableData : List (String × List String)
  lastContactKey : Option String
deriving DecidableEq, Repr

def initState : AggState :=
  { contactsMap := [], messagesByContact := [], searchableData := [],
    lastContactKey := none }

/-- The uniform tuple the per-record extraction assigns to the loop locals
phone, contactName, messageText, timestamp, isFromMe, messageId, isRead. -/
structure Extracted where
  phone : String
  contactName : String
  messageText : String
  timestamp : Int
  isFromMe : Bool
  messageId : Option Int
  isRead : Bool
  isCallLog : Bool
deriving DecidableEq, Repr

/-- Lines 126-199 of processMessagesData: classify the record, extract the
uniform tuple, or skip (none). The continuation branch consults the running
state (lastContactKey and the contacts map). -/
def extract (st : AggState) : UnifiedRecord → Option Extracted
  | UnifiedRecord.data r =>
    let isCallLog := r.recType == "Call Log"
    let isSMS := r.recType == "SMS Messages" || r.recType == "Instant Messages"
    if !isSMS && !isCallLog then none
    else
      let partyRaw := jsTrim r.Party
      let hasEmptyFrom := hasEmptyFromTest partyRaw
      let hasEmptyTo := hasEmptyToTest partyRaw
      let partyInfo := extractPhoneFromParty r.Party
      if !isCallLog && r.Description == "" then none
      else
        let pn : Option (String × String) :=
          match partyInfo with
          | some info => some info
          | none =>
            if hasEmptyFrom || hasEmptyTo then
              match st.lastContactKey with
              | none => none
              | some key =>
                match mget st.contactsMap key with
                | none => none
                | some existing => some (existing.phone, existing.name)
            else if isCallLog && r.Party != "" && !jsIncludes r.Party "From:" &&
                !jsIncludes r.Party "To:" then
              some (r.Party, "Unknown")
            else none
        match pn with
        | none => none
        | some info =>
          some { phone := info.1, contactName := info.2,
                 messageText := r.Description,
                 timestamp := r.Timestamp,
                 isFromMe := r.Direction == "To" || hasEmptyFrom,
                 messageId := parseIntJs r.ID,
                 isRead := true,
                 isCallLog := isCallLog }
  | UnifiedRecord.legacy r =>
    if r.phone == "" || r.message == "" then none
    else
      some { phone := r.phone,
             contactName := if r.name == "" then "Unknown" else r.name,
             messageText := r.message,
             timestamp := r.timestamp,
             isFromMe := r.direction == "to",
             messageId := some r.id,
             isRead := r.status == "Read",
             isCallLog := false }

/-- Searchable terms pushed for one accepted record (lines 231-250). -/
def searchTermsFor : UnifiedRecord → List String
  | UnifiedRecord.data r =>
    (if r.Party != "" then [r.Party] else []) ++
    (if r.Description != "" then [r.Description] else [])
  | UnifiedRecord.legacy r =>
    (if r.name != "" then [r.name] else []) ++
    (if r.phone != "" then [r.phone] else []) ++
    (if r.message != "" then [r.message] else [])

/-- contactKey = normalizedPhone || phone (line 204). -/
def contactKeyOf (phone : String) : String :=
  let normalizedPhone := normalizePhoneNumber phone
  if normalizedPhone ≠ "" then normalizedPhone else phone

/-- The Message object built for one accepted record (lines 208-216). -/
def mkMessage (e : Extracted) : Message :=
  { id := e.messageId,
    text := e.messageText,
    timestamp := e.timestamp,
    isFromMe := e.isFromMe,
    isRead := e.isRead,
    status := mapSMSStatusToMessageStatus
      (if e.isRead then "Read" else "Unread") e.isFromMe,
    isCallLog := e.isCallLog }

/-- Lines 254-266: mutation of an existing contact: update lastMessage and
lastMessageTime when strictly newer, bump messageCount, clear isRead only
for an incoming unread message. -/
def updateContact (existingContact : Contact) (e : Extracted) : Contact :=
  let c1 :=
    if existingContact.lastMessageTime < e.timestamp then
      { existingContact with
          lastMessage := e.messageText, lastMessageTime := e.timestamp }
    else existingContact
  let c2 := { c1 with messageCount := c1.messageCount + 1 }
  if !e.isFromMe && !e.isRead then { c2 with isRead := false } else c2

/-- Lines 268-279: the contact created on the first record for a key. -/
def newContact (e : Extracted) : Contact :=
  { phone := e.phone,
    name := e.contactName,
    normalizedPhone := normalizePhoneNumber e.phone,
    lastMessage := e.messageText,
    lastMessageTime := e.timestamp,
    messageCount := 1,
    isRead := if !e.isFromMe then e.isRead else true }

/-- Lines 201-280: record the message, the searchable terms and the contact
update for one accepted record with a non-empty phone. -/
def applyExtracted (st : AggState) (e : Extracted) (terms : List String) :
    AggState :=
  let contactKey := contactKeyOf e.phone
  let message := mkMessage e
  let msgs := (mget st.messagesByContact contactKey).getD []
  let messagesByContact := mset st.messagesByContact contactKey (msgs ++ [message])
  let oldTerms := (mget st.searchableData contactKey).getD []
  let searchableData := mset st.searchableData contactKey (oldTerms ++ terms)
  let contactsMap :=
    match mget st.contactsMap contactKey with
    | some existingContact =>
      mset st.contactsMap contactKey (updateContact existingContact e)
    | none =>
      mset st.contactsMap contactKey (newContact e)
  { contactsMap := contactsMap,
    messagesByContact := messagesByContact,
    searchableData := searchableData,
    lastContactKey := some contactKey }

/-- One iteration of the forEach loop: extract, bail out on a missing or
empty phone, otherwise apply. -/
def processRecord (st : AggState) (record : UnifiedRecord) : AggState :=
  match extract st record with
  | none => st
  | some e =>
    if e.phone == "" then st
    else applyExtracted st e (searchTermsFor record)

/-- The state after the whole forEach pass. -/
def foldState (data : List UnifiedRecord) : AggState :=
  data.foldl processRecord initState

/-- Comparator a.timestamp - b.timestamp of the per-contact message sort,
as the relation it sorts by; the JS array sort is stable. -/
def msgLE (a b : Message) : Prop := a.timestamp ≤ b.timestamp

instance : DecidableRel msgLE := fun a b => Int.decLe a.timestamp b.timestamp

/-- Comparator b.lastMessageTime - a.lastMessageTime of the contact sort. -/
def contactGE (a b : Contact) : Prop := b.lastMessageTime ≤ a.lastMessageTime

instance : DecidableRel contactGE :=
  fun a b => Int.decLe b.lastMessageTime a.lastMessageTime

/-- Return value of processMessagesData. -/
structure ProcessResult where
  contacts : List Contact
  messagesByContact : List (String × List Message)
  searchableData : List (String × List String)
deriving Repr

/-- processMessagesData: fold over the records, then sort every message
list ascending by timestamp (stable) and the contact array descending by
lastMessageTime. -/
def processMessagesData (data : List UnifiedRecord) : ProcessResult :=
  let st := foldState data
  { contacts := List.insertionSort contactGE (st.contactsMap.map Prod.snd),
    messagesByContact :=
      st.messagesByContact.map fun p => (p.1, List.insertionSort msgLE p.2),
    searchableData := st.searchableData }

/-- The contactKey of a record when the loop accepts it, none when the loop
skips it. -/
def stepKeyOf (st : AggState) (record : UnifiedRecord) : Option String :=
  match extract st record with
  | none => none
  | some e => if e.phone == "" then none else some (contactKeyOf e.phone)

/-- Keys of the accepted records, in input order, starting from a state. -/
def keyTrace (st : AggState) : List UnifiedRecord → List String
  | [] => []
  | r :: rs => (stepKeyOf st r).toList ++ keyTrace (processRecord st r) rs

/-- States the aggregation loop can actually be in. -/
def Reachable (st : AggState) : Prop :=
  ∃ data : List UnifiedRecord, foldState data = st

/-! ### Match-location lookup (ContactList.tsx, processChunk) -/

structure MatchMeta where
  snippet : List Char
  messageId : Option Int
deriving DecidableEq, Repr

/-- Snippet around a match: 20 characters of context on each side, ellipsis
markers when the window is cut (idx - 20 in Nat models Math.max(0, ...)). -/
def snippetList (text : List Char) (idx qlen : Nat) : List Char :=
  let start := idx - 20
  let stop := min text.length (idx + qlen + 20)
  let pre := if 0 < start then ['…'] else []
  let suf := if stop < text.length then ['…'] else []
  pre ++ (text.drop start).take (stop - start) ++ suf

/-- Snippet used when the contact matched but no message body did: the most
recent message, cut at 60 characters. -/
def fallbackSnippet (text : List Char) : List Char :=
  if 60 < text.length then text.take 60 ++ ['…'] else text

/-- One message passes the inner loop of processChunk when its text is
non-empty and its lowercased text contains the query. -/
def msgMatches (query : List Char) (m : Message) : Bool :=
  !(m.text == "") && (firstIndexOf (m.text.data.map Char.toLower) query).isSome

/-- The inner for loop of processChunk over one contact: report the first
message whose body matches, with its snippet. -/
def findFirstMatch (query : List Char) : List Message → Option MatchMeta
  | [] => none
  | m :: ms =>
    if m.text == "" then findFirstMatch query ms
    else
      match firstIndexOf (m.text.data.map Char.toLower) query with
      | some idx =>
        some { snippet := snippetList m.text.data idx query.length,
               messageId := m.id }
      | none => findFirstMatch query ms

/-- The per-contact body of processChunk: first matching message, else fall
back to the most recent message when it has text. -/
def matchMetaFor (query : List Char) (messages : List Message) :
    Option MatchMeta :=
  match findFirstMatch query messages with
  | some meta => some meta
  | none =>
    match messages.getLast? with
    | none => none
    | some lastMsg =>
      if lastMsg.text == "" then none
      else
        some { snippet := fallbackSnippet lastMsg.text.data,
               messageId := lastMsg.id }

/-! ### Lemmas about the phone normalizer -/

lemma pre960 (t : List Char) :
    (['9', '6', '0'] : List Char).isPrefixOf ('9' :: '6' :: '0' :: t) = true := by
  simp [List.isPrefixOf]

lemma nc_of_pre960 {l : List Char}
    (h : (['9', '6', '0'] : List Char).isPrefixOf l = true) :
    normalizeCleaned l = l := by
  unfold normalizeCleaned
  rw [if_pos h]

lemma nc_960_append (t : List Char) :
    normalizeCleaned ('9' :: '6' :: '0' :: t) = '9' :: '6' :: '0' :: t :=
  nc_of_pre960 (pre960 t)

lemma normalizeCleaned_digits {l : List Char}
    (h : ∀ c ∈ l, c.isDigit = true) :
    ∀ c ∈ normalizeCleaned l, c.isDigit = true := by
  intro c hc
  unfold normalizeCleaned at hc
  split_ifs at hc with h1 h2 h3 h4 h5
  · exact h c hc
  · rcases List.mem_append.mp hc with h9 | hm
    · fin_cases h9 <;> decide
    · exact h c hm
  · rcases List.mem_append.mp hc with h9 | hm
    · fin_cases h9 <;> decide
    · exact h c (List.mem_of_mem_drop hm)
  · exact h c hc
  · rcases List.mem_append.mp hc with h9 | hm
    · fin_cases h9 <;> decide
    · exact h c hm
  · exact h c hc

lemma normalizeCleaned_idem {l : List Char}
    (h : ∀ c ∈ l, c.isDigit = true) :
    normalizeCleaned (normalizeCleaned l) = normalizeCleaned l := by
  have hall : l.all Char.isDigit = true := List.all_eq_true.mpr h
  by_cases h1 : (['9', '6', '0'] : List Char).isPrefixOf l = true
  · rw [nc_of_pre960 h1]
    exact nc_of_pre960 h1
  · by_cases h2 : l.length = 7
    · have e : normalizeCleaned l = '9' :: '6' :: '0' :: l := by
        unfold normalizeCleaned
        rw [if_neg h1, if_pos ⟨h2, hall⟩]
        rfl
      rw [e]
      exact nc_960_append l
    · by_cases h3 : l.head? = some '0'
      · have e : normalizeCleaned l = '9' :: '6' :: '0' :: l.drop 1 := by
          unfold normalizeCleaned
          rw [if_neg h1, if_neg (fun hh => h2 hh.1), if_pos h3]
          rfl
        rw [e]
        exact nc_960_append (l.drop 1)
      · by_cases h4 : 10 ≤ l.length
        · have e : normalizeCleaned l = l := by
            unfold normalizeCleaned
            rw [if_neg h1, if_neg (fun hh => h2 hh.1), if_neg h3, if_pos h4]
          rw [e]
          exact e
        · have e : normalizeCleaned l = l := by
            unfold normalizeCleaned
            rw [if_neg h1, if_neg (fun hh => h2 hh.1), if_neg h3, if_neg h4,
                if_neg h2]
          rw [e]
          exact e

/-- C9: phone normalization is idempotent: normalizing an
already-normalized phone number returns it unchanged. -/
theorem normalizePhoneNumber_idempotent (p : String) :
    normalizePhoneNumber (normalizePhoneNumber p) = normalizePhoneNumber p := by
  by_cases hp : p = ""
  · subst hp
    rfl
  · have hdig : ∀ ch ∈ p.data.filter Char.isDigit, ch.isDigit = true :=
      fun ch hm => List.of_mem_filter hm
    have h1 : normalizePhoneNumber p =
        String.mk (normalizeCleaned (p.data.filter Char.isDigit)) := by
      simp only [normalizePhoneNumber, if_neg hp]
    rw [h1]
    by_cases hr : String.mk (normalizeCleaned (p.data.filter Char.isDigit)) = ""
    · simp only [normalizePhoneNumber, if_pos hr]
      exact hr.symm
    · simp only [normalizePhoneNumber, if_neg hr]
      rw [List.filter_eq_self.mpr (normalizeCleaned_digits hdig),
          normalizeCleaned_idem hdig]

/-! ### Lemmas about the search executor -/

lemma listContains_infix_iff (hay pat : List Char) :
    listContains hay pat = true ↔ pat <:+: hay := by
  induction hay with
  | nil =>
    simp only [listContains, decide_eq_true_eq, List.infix_nil]
  | cons c t ih =>
    simp only [listContains, Bool.or_eq_true, List.isPrefixOf_iff_prefix, ih,
      List.infix_cons_iff]

lemma toLower_of_jsWhitespace {c : Char} (h : jsWhitespace c = true) :
    Char.toLower c = c := by
  have hne : ¬(65 ≤ c.toNat ∧ c.toNat ≤ 90) := by
    simp only [jsWhitespace, Bool.or_eq_true, decide_eq_true_eq,
      Bool.and_eq_true] at h
    rcases h with
      ((((((((((((((h | h) | h) | h) | h) | h) | h) | h) | h) | h) | h) | h)
        | h) | h) | h)
    all_goals first
      | (subst h; decide)
      | omega
  unfold Char.toLower
  rw [if_neg hne]

lemma trimList_of_all_ws {l : List Char} (h : l.all jsWhitespace = true) :
    trimList l = [] := by
  unfold trimList
  rw [List.dropWhile_eq_nil_iff.mpr (List.all_eq_true.mp h)]
  rfl

/-- C1: the search executor returns exactly the contactIds whose stored
corpus text, lowercased, contains the lowercased trimmed query as a
substring; a query that is empty or whitespace-only after trimming yields
the empty result list, the distinguished no-filter signal. -/
theorem searchExec_matches_iff (corpus : List SearchIndexItem) (query : String) :
    (jsTrim (jsToLower query) = "" →
      searchExec (initIndex corpus) query = []) ∧
    (query.data.all jsWhitespace = true →
      searchExec (initIndex corpus) query = []) ∧
    (jsTrim (jsToLower query) ≠ "" →
      ∀ cid : String,
        cid ∈ searchExec (initIndex corpus) query ↔
        ∃ it ∈ corpus, it.contactId = cid ∧
          (jsTrim (jsToLower query)).data <:+: (jsToLower it.text).data) := by
  refine ⟨fun h => ?_, fun h => ?_, fun h cid => ?_⟩
  · simp [searchExec, h]
  · have hlow : (jsToLower query).data.all jsWhitespace = true := by
      rw [List.all_eq_true] at h ⊢
      intro x hx
      rcases List.mem_map.mp hx with ⟨y, hy, rfl⟩
      rw [toLower_of_jsWhitespace (h y hy)]
      exact h y hy
    have : jsTrim (jsToLower query) = "" := by
      unfold jsTrim
      rw [trimList_of_all_ws hlow]
    simp [searchExec, this]
  · simp only [searchExec, if_neg h, List.mem_map, List.mem_filter, initIndex]
    constructor
    · rintro ⟨x, ⟨⟨it, hit, rfl⟩, hcont⟩, rfl⟩
      exact ⟨it, hit, rfl, (listContains_infix_iff _ _).mp hcont⟩
    · rintro ⟨it, hit, rfl, hinf⟩
      exact ⟨{ contactId := it.contactId, text := jsToLower it.text },
        ⟨⟨it, hit, rfl⟩, (listContains_infix_iff _ _).mpr hinf⟩, rfl⟩

/-- Witness for C1 at the corpus entry and queries named by the spec. -/
theorem searchExec_matches_iff_witness :
    ("hello" : String) ∈ searchExec
        (initIndex [{ contactId := "hello", text := "john\n+9601234567\nhello world" }])
        "HELLO" ∧
    searchExec
        (initIndex [{ contactId := "hello", text := "john\n+9601234567\nhello world" }])
        "  " = [] := by
  constructor
  · exact ((searchExec_matches_iff
      [{ contactId := "hello", text := "john\n+9601234567\nhello world" }]
      "HELLO").2.2 (by decide) "hello").mpr
      ⟨{ contactId := "hello", text := "john\n+9601234567\nhello world" },
        by decide, rfl, by decide⟩
  · exact (searchExec_matches_iff
      [{ contactId := "hello", text := "john\n+9601234567\nhello world" }]
      "  ").1 (by decide)

/-! ### Lemmas about the association-list map -/

section MapLemmas

variable {α β : Type}

lemma mget_eq_none_iff (m : List (String × α)) (k : String) :
    mget m k = none ↔ k ∉ mkeys m := by
  simp only [mget, mkeys, Option.map_eq_none', List.find?_eq_none, List.mem_map,
    beq_iff_eq]
  constructor
  · rintro hall ⟨p, hp, rfl⟩
    exact hall p hp rfl
  · intro hnk p hp he
    exact hnk ⟨p, hp, he⟩

lemma mget_isSome_iff (m : List (String × α)) (k : String) :
    (mget m k).isSome = true ↔ k ∈ mkeys m := by
  rw [Option.isSome_iff_ne_none, ne_eq, mget_eq_none_iff, not_not]

lemma find?_replace (m : List (String × α)) (k : String) (v : α) :
    ((m.map fun p => if p.1 == k then (k, v) else p).find? fun p => p.1 == k)
      = if m.any (fun p => p.1 == k) then some (k, v) else none := by
  induction m with
  | nil => simp
  | cons p t ih =>
    rw [List.map_cons, List.any_cons]
    by_cases hp : p.1 = k
    · rw [show (if p.1 == k then (k, v) else p) = (k, v) by simp [hp],
          List.find?_cons_of_pos _ (by simp)]
      simp [hp]
    · rw [show (if p.1 == k then (k, v) else p) = p by simp [hp],
          List.find?_cons_of_neg _ (by simp [hp]), ih]
      by_cases hany : (t.any fun p => p.1 == k) = true <;>
        simp [hp, hany]

lemma find?_replace_ne (m : List (String × α)) (k kk : String) (v : α)
    (hne : kk ≠ k) :
    ((m.map fun p => if p.1 == k then (k, v) else p).find? fun p => p.1 == kk)
      = m.find? fun p => p.1 == kk := by
  induction m with
  | nil => simp
  | cons p t ih =>
    rw [List.map_cons]
    by_cases hp : p.1 = k
    · rw [show (if p.1 == k then (k, v) else p) = (k, v) by simp [hp],
          List.find?_cons_of_neg _ (by simp; exact fun hh => hne hh.symm),
          List.find?_cons_of_neg _ (by simp [hp]; exact fun hh => hne hh.symm),
          ih]
    · rw [show (if p.1 == k then (k, v) else p) = p by simp [hp]]
      by_cases hq : p.1 = kk
      · rw [List.find?_cons_of_pos _ (by simp [hq]),
            List.find?_cons_of_pos _ (by simp [hq])]
      · rw [List.find?_cons_of_neg _ (by simp [hq]),
            List.find?_cons_of_neg _ (by simp [hq]), ih]

lemma mget_mset_self (m : List (String × α)) (k : String) (v : α) :
    mget (mset m k v) k = some v := by
  unfold mget mset
  by_cases hany : (m.any fun p => p.1 == k) = true
  · rw [if_pos hany, find?_replace, if_pos hany]
    rfl
  · rw [if_neg hany, List.find?_append,
        List.find?_eq_none.mpr
          (List.any_eq_false.mp (Bool.eq_false_iff.mpr hany))]
    simp

lemma mget_mset_ne (m : List (String × α)) (k kk : String) (v : α)
    (hne : kk ≠ k) :
    mget (mset m k v) kk = mget m kk := by
  unfold mget mset
  by_cases hany : (m.any fun p => p.1 == k) = true
  · rw [if_pos hany, find?_replace_ne m k kk v hne]
  · rw [if_neg hany, List.find?_append]
    have h2 : (([(k, v)] : List (String × α)).find? fun p => p.1 == kk) = none := by
      rw [List.find?_cons_of_neg _ (by simp; exact fun hh => hne hh.symm)]
      rfl
    rw [h2]
    cases m.find? fun p => p.1 == kk <;> rfl

lemma mkeys_mset_of_mem {m : List (String × α)} {k : String} (v : α)
    (h : k ∈ mkeys m) : mkeys (mset m k v) = mkeys m := by
  have hany : (m.any fun p => p.1 == k) = true := by
    rcases List.mem_map.mp h with ⟨p, hp, rfl⟩
    exact List.any_eq_true.mpr ⟨p, hp, by simp⟩
  unfold mset
  rw [if_pos hany]
  unfold mkeys
  rw [List.map_map]
  apply List.map_congr_left
  intro p hp
  by_cases hpk : p.1 = k <;> simp [Function.comp, hpk]

lemma mkeys_mset_of_not_mem {m : List (String × α)} {k : String} (v : α)
    (h : k ∉ mkeys m) : mkeys (mset m k v) = mkeys m ++ [k] := by
  have hany : ¬(m.any fun p => p.1 == k) = true := by
    rw [List.any_eq_true]
    rintro ⟨p, hp, hpk⟩
    exact h (List.mem_map.mpr ⟨p, hp, by simpa using hpk⟩)
  unfold mset
  rw [if_neg hany, mkeys, List.map_append]
  rfl

lemma nodup_mkeys_mset {m : List (String × α)} {k : String} (v : α)
    (h : (mkeys m).Nodup) : (mkeys (mset m k v)).Nodup := by
  by_cases hk : k ∈ mkeys m
  · rw [mkeys_mset_of_mem v hk]
    exact h
  · rw [mkeys_mset_of_not_mem v hk]
    exact h.append (List.nodup_singleton k) (List.disjoint_singleton.mpr hk)

lemma mem_mset {m : List (String × α)} {k : String} {v : α} {p : String × α}
    (h : p ∈ mset m k v) : p = (k, v) ∨ p ∈ m := by
  unfold mset at h
  split_ifs at h with hany
  · rcases List.mem_map.mp h with ⟨q, hq, rfl⟩
    by_cases hqk : q.1 = k
    · left
      simp [hqk]
    · right
      simpa [hqk] using hq
  · rcases List.mem_append.mp h with hq | hq
    · right
      exact hq
    · left
      simpa using hq

lemma mget_mem {m : List (String × α)} {k : String} {v : α}
    (h : mget m k = some v) : (k, v) ∈ m := by
  unfold mget at h
  rcases Option.map_eq_some'.mp h with ⟨p, hp, rfl⟩
  have h1 : p.1 = k := by simpa using List.find?_some hp
  have h2 : p ∈ m := List.mem_of_find?_eq_some hp
  have h3 : p = (p.1, p.2) := rfl
  rw [← h1]
  exact h3 ▸ h2

lemma mget_of_mem_nodup {m : List (String × α)} {k : String} {v : α}
    (hnd : (mkeys m).Nodup) (hp : (k, v) ∈ m) : mget m k = some v := by
  induction m with
  | nil => cases hp
  | cons q t ih =>
    rw [mkeys, List.map_cons, List.nodup_cons] at hnd
    rcases List.mem_cons.mp hp with rfl | hmem
    · unfold mget
      rw [List.find?_cons_of_pos _ (by simp)]
      rfl
    · have hk : k ∈ mkeys t := List.mem_map.mpr ⟨(k, v), hmem, rfl⟩
      have hqk : ¬(q.1 = k) := fun hh => hnd.1 (hh ▸ hk)
      unfold mget
      rw [List.find?_cons_of_neg _ (by simpa using hqk)]
      exact ih hnd.2 hmem

lemma mget_map_snd (m : List (String × α)) (f : α → β) (k : String) :
    mget (m.map fun p => (p.1, f p.2)) k = (mget m k).map f := by
  induction m with
  | nil => rfl
  | cons p t ih =>
    rw [List.map_cons]
    by_cases hp : p.1 = k
    · unfold mget
      rw [List.find?_cons_of_pos _ (by simpa using hp),
          List.find?_cons_of_pos _ (by simpa using hp)]
      rfl
    · unfold mget
      rw [List.find?_cons_of_neg _ (by simpa using hp),
          List.find?_cons_of_neg _ (by simpa using hp)]
      exact ih

end MapLemmas

/-! ### Stability of the message sort -/

instance : IsTotal Message msgLE :=
  ⟨fun a b => Int.le_total a.timestamp b.timestamp⟩

instance : IsTrans Message msgLE :=
  ⟨fun _ _ _ hab hbc => le_trans hab hbc⟩

lemma filter_orderedInsert_ts (t : Int) (a : Message) (l : List Message) :
    (List.orderedInsert msgLE a l).filter (fun m => decide (m.timestamp = t))
      = if a.timestamp = t
        then a :: l.filter (fun m => decide (m.timestamp = t))
        else l.filter (fun m => decide (m.timestamp = t)) := by
  induction l with
  | nil =>
    rw [List.orderedInsert_nil]
    by_cases ha : a.timestamp = t <;> simp [ha]
  | cons b bs ih =>
    rw [List.orderedInsert]
    by_cases hr : msgLE a b
    · rw [if_pos hr]
      by_cases ha : a.timestamp = t <;> simp [List.filter_cons, ha]
    · rw [if_neg hr, List.filter_cons]
      by_cases hb : b.timestamp = t
      · by_cases ha : a.timestamp = t
        · exact absurd (show msgLE a b from le_of_eq (ha.trans hb.symm)) hr
        · rw [List.filter_cons, ih]
          simp [hb, ha]
      · by_cases ha : a.timestamp = t <;>
          · rw [List.filter_cons, ih]
            simp [hb, ha]

lemma filter_insertionSort_ts (t : Int) (l : List Message) :
    (List.insertionSort msgLE l).filter (fun m => decide (m.timestamp = t))
      = l.filter (fun m => decide (m.timestamp = t)) := by
  induction l with
  | nil => rfl
  | cons a l ih =>
    rw [show List.insertionSort msgLE (a :: l)
          = List.orderedInsert msgLE a (List.insertionSort msgLE l) from rfl,
        filter_orderedInsert_ts, List.filter_cons]
    by_cases ha : a.timestamp = t <;> simp [ha, ih]

/-! ### Field lemmas for the contact update -/

lemma updateContact_phone (c : Contact) (e : Extracted) :
    (updateContact c e).phone = c.phone := by
  unfold updateContact
  split_ifs <;> rfl

lemma updateContact_name (c : Contact) (e : Extracted) :
    (updateContact c e).name = c.name := by
  unfold updateContact
  split_ifs <;> rfl

lemma updateContact_messageCount (c : Contact) (e : Extracted) :
    (updateContact c e).messageCount = c.messageCount + 1 := by
  unfold updateContact
  split_ifs <;> rfl

lemma updateContact_lastMessageTime (c : Contact) (e : Extracted) :
    (updateContact c e).lastMessageTime =
      if c.lastMessageTime < e.timestamp then e.timestamp
      else c.lastMessageTime := by
  unfold updateContact
  split_ifs <;> rfl

lemma updateContact_lastMessage (c : Contact) (e : Extracted) :
    (updateContact c e).lastMessage =
      if c.lastMessageTime < e.timestamp then e.messageText
      else c.lastMessage := by
  unfold updateContact
  split_ifs <;> rfl

lemma updateContact_isRead (c : Contact) (e : Extracted) :
    (updateContact c e).isRead =
      if !e.isFromMe && !e.isRead then false else c.isRead := by
  unfold updateContact
  split_ifs <;> rfl

/-! ### Field lemmas for one accepted step -/

lemma applyExtracted_messagesByContact (st : AggState) (e : Extracted)
    (terms : List String) :
    (applyExtracted st e terms).messagesByContact
      = mset st.messagesByContact (contactKeyOf e.phone)
          ((mget st.messagesByContact (contactKeyOf e.phone)).getD []
            ++ [mkMessage e]) := rfl

lemma applyExtracted_searchableData (st : AggState) (e : Extracted)
    (terms : List String) :
    (applyExtracted st e terms).searchableData
      = mset st.searchableData (contactKeyOf e.phone)
          ((mget st.searchableData (contactKeyOf e.phone)).getD [] ++ terms) := rfl

lemma applyExtracted_lastContactKey (st : AggState) (e : Extracted)
    (terms : List String) :
    (applyExtracted st e terms).lastContactKey = some (contactKeyOf e.phone) := rfl

lemma applyExtracted_contactsMap_update {st : AggState} {e : Extracted}
    (terms : List String) {c : Contact}
    (hg : mget st.contactsMap (contactKeyOf e.phone) = some c) :
    (applyExtracted st e terms).contactsMap
      = mset st.contactsMap (contactKeyOf e.phone) (updateContact c e) := by
  simp only [applyExtracted, hg]

lemma applyExtracted_contactsMap_create {st : AggState} {e : Extracted}
    (terms : List String)
    (hg : mget st.contactsMap (contactKeyOf e.phone) = none) :
    (applyExtracted st e terms).contactsMap
      = mset st.contactsMap (contactKeyOf e.phone) (newContact e) := by
  simp only [applyExtracted, hg]

lemma processRecord_eq_of_stepKey_none {st : AggState} {r : UnifiedRecord}
    (h : stepKeyOf st r = none) : processRecord st r = st := by
  cases hE : extract st r with
  | none => simp only [processRecord, hE]
  | some e =>
    simp only [stepKeyOf, hE] at h
    simp only [processRecord, hE]
    by_cases hp : (e.phone == "") = true
    · rw [if_pos hp]
    · rw [if_neg hp] at h
      cases h

lemma processRecord_eq_of_stepKey_some {st : AggState} {r : UnifiedRecord}
    {k : String} (h : stepKeyOf st r = some k) :
    ∃ e, extract st r = some e ∧ e.phone ≠ "" ∧ k = contactKeyOf e.phone ∧
      processRecord st r = applyExtracted st e (searchTermsFor r) := by
  cases hE : extract st r with
  | none =>
    simp only [stepKeyOf, hE] at h
    cases h
  | some e =>
    simp only [stepKeyOf, hE] at h
    by_cases hp : (e.phone == "") = true
    · rw [if_pos hp] at h
      cases h
    · rw [if_neg hp] at h
      refine ⟨e, rfl, by simpa using hp, (Option.some_inj.mp h).symm, ?_⟩
      simp only [processRecord, hE]
      rw [if_neg hp]

lemma keyTrace_nil (st : AggState) : keyTrace st [] = [] := rfl

lemma keyTrace_cons (st : AggState) (r : UnifiedRecord)
    (rs : List UnifiedRecord) :
    keyTrace st (r :: rs)
      = (stepKeyOf st r).toList ++ keyTrace (processRecord st r) rs := rfl

/-! ### The loop invariant -/

/-- Facts that hold of the aggregation state at every point of the fold. -/
structure Inv (st : AggState) : Prop where
  nodupC : (mkeys st.contactsMap).Nodup
  nodupM : (mkeys st.messagesByContact).Nodup
  entries : ∀ p ∈ st.contactsMap, p.2.phone ≠ "" ∧ contactKeyOf p.2.phone = p.1
  dom : ∀ k, (mget st.contactsMap k).isSome = (mget st.messagesByContact k).isSome
  coh : ∀ k c, mget st.contactsMap k = some c →
    ∃ l, mget st.messagesByContact k = some l ∧
      c.messageCount = l.length ∧ l ≠ [] ∧
      (∀ m ∈ l, m.timestamp ≤ c.lastMessageTime) ∧
      (∃ m ∈ l, m.timestamp = c.lastMessageTime ∧ m.text = c.lastMessage)
  lastK : ∀ k, st.lastContactKey = some k → (mget st.contactsMap k).isSome = true

lemma inv_initState : Inv initState := by
  constructor
  · simp [initState, mkeys]
  · simp [initState, mkeys]
  · intro p hp
    cases hp
  · intro k
    rfl
  · intro k c hc
    cases hc
  · intro k hk
    cases hk

lemma inv_applyExtracted {st : AggState} {e : Extracted} (terms : List String)
    (hp : e.phone ≠ "") (h : Inv st) : Inv (applyExtracted st e terms) := by
  have hCmap : ∀ k, mget (applyExtracted st e terms).contactsMap k
      = if k = contactKeyOf e.phone
        then some (match mget st.contactsMap (contactKeyOf e.phone) with
                   | some c => updateContact c e
                   | none => newContact e)
        else mget st.contactsMap k := by
    intro k
    cases hg : mget st.contactsMap (contactKeyOf e.phone) with
    | some c =>
      rw [applyExtracted_contactsMap_update terms hg]
      by_cases hk : k = contactKeyOf e.phone
      · subst hk
        rw [mget_mset_self, if_pos rfl]
      · rw [mget_mset_ne _ _ _ _ hk, if_neg hk]
    | none =>
      rw [applyExtracted_contactsMap_create terms hg]
      by_cases hk : k = contactKeyOf e.phone
      · subst hk
        rw [mget_mset_self, if_pos rfl]
      · rw [mget_mset_ne _ _ _ _ hk, if_neg hk]
  constructor
  · cases hg : mget st.contactsMap (contactKeyOf e.phone) with
    | some c =>
      rw [applyExtracted_contactsMap_update terms hg]
      exact nodup_mkeys_mset _ h.nodupC
    | none =>
      rw [applyExtracted_contactsMap_create terms hg]
      exact nodup_mkeys_mset _ h.nodupC
  · rw [applyExtracted_messagesByContact]
    exact nodup_mkeys_mset _ h.nodupM
  · intro p hpm
    cases hg : mget st.contactsMap (contactKeyOf e.phone) with
    | some c =>
      rw [applyExtracted_contactsMap_update terms hg] at hpm
      rcases mem_mset hpm with rfl | hmem
      · have hent := h.entries (contactKeyOf e.phone, c) (mget_mem hg)
        exact ⟨by rw [updateContact_phone]; exact hent.1,
               by rw [updateContact_phone]; exact hent.2⟩
      · exact h.entries p hmem
    | none =>
      rw [applyExtracted_contactsMap_create terms hg] at hpm
      rcases mem_mset hpm with rfl | hmem
      · exact ⟨hp, rfl⟩
      · exact h.entries p hmem
  · intro k
    rw [hCmap k, applyExtracted_messagesByContact]
    by_cases hk : k = contactKeyOf e.phone
    · subst hk
      rw [if_pos rfl, mget_mset_self]
      rfl
    · rw [if_neg hk, mget_mset_ne _ _ _ _ hk]
      exact h.dom k
  · intro k c hc
    rw [hCmap k] at hc
    rw [applyExtracted_messagesByContact]
    by_cases hk : k = contactKeyOf e.phone
    · subst hk
      rw [if_pos rfl] at hc
      rw [mget_mset_self]
      cases hg : mget st.contactsMap (contactKeyOf e.phone) with
      | some cOld =>
        rw [hg] at hc
        have hcc : c = updateContact cOld e := (Option.some_inj.mp hc).symm
        subst hcc
        obtain ⟨l0, hl0, hcount, _, hub, m0, hm0, hts, htext⟩ :=
          h.coh (contactKeyOf e.phone) cOld hg
        rw [hl0]
        refine ⟨l0 ++ [mkMessage e], rfl, ?_, by simp, ?_, ?_⟩
        · rw [updateContact_messageCount, hcount]
          simp
        · intro m hm
          rw [updateContact_lastMessageTime]
          rcases List.mem_append.mp hm with hm | hm
          · by_cases hlt : cOld.lastMessageTime < e.timestamp
            · rw [if_pos hlt]
              exact le_of_lt (lt_of_le_of_lt (hub m hm) hlt)
            · rw [if_neg hlt]
              exact hub m hm
          · rw [List.mem_singleton.mp hm]
            by_cases hlt : cOld.lastMessageTime < e.timestamp
            · rw [if_pos hlt]
              exact le_refl _
            · rw [if_neg hlt]
              exact le_of_not_lt hlt
        · rw [updateContact_lastMessageTime, updateContact_lastMessage]
          by_cases hlt : cOld.lastMessageTime < e.timestamp
          · refine ⟨mkMessage e,
              List.mem_append_right _ (List.mem_singleton.mpr rfl), ?_, ?_⟩
            · rw [if_pos hlt]
              rfl
            · rw [if_pos hlt]
              rfl
          · refine ⟨m0, List.mem_append_left _ hm0, ?_, ?_⟩
            · rw [if_neg hlt]
              exact hts
            · rw [if_neg hlt]
              exact htext
      | none =>
        rw [hg] at hc
        have hcc : c = newContact e := (Option.some_inj.mp hc).symm
        subst hcc
        have hmm : mget st.messagesByContact (contactKeyOf e.phone) = none := by
          have hd := h.dom (contactKeyOf e.phone)
          rw [hg] at hd
          exact Option.not_isSome_iff_eq_none.mp (by rw [← hd]; simp)
        rw [hmm]
        refine ⟨[mkMessage e], rfl, rfl, by simp, ?_, ?_⟩
        · intro m hm
          rw [List.mem_singleton.mp hm]
          exact le_refl _
        · exact ⟨mkMessage e, List.mem_singleton.mpr rfl, rfl, rfl⟩
    · rw [if_neg hk] at hc
      rw [mget_mset_ne _ _ _ _ hk]
      exact h.coh k c hc
  · intro k hk
    rw [applyExtracted_lastContactKey] at hk
    rw [hCmap k, if_pos (Option.some_inj.mp hk).symm]
    rfl

lemma inv_processRecord {st : AggState} (r : UnifiedRecord) (h : Inv st) :
    Inv (processRecord st r) := by
  cases hstep : stepKeyOf st r with
  | none =>
    rw [processRecord_eq_of_stepKey_none hstep]
    exact h
  | some k =>
    obtain ⟨e, _, hp, _, heq⟩ := processRecord_eq_of_stepKey_some hstep
    rw [heq]
    exact inv_applyExtracted _ hp h

lemma inv_foldl (data : List UnifiedRecord) :
    ∀ st : AggState, Inv st → Inv (data.foldl processRecord st) := by
  induction data with
  | nil => exact fun _ h => h
  | cons r rs ih =>
    intro st h
    exact ih (processRecord st r) (inv_processRecord r h)

lemma inv_foldState (data : List UnifiedRecord) : Inv (foldState data) :=
  inv_foldl data initState inv_initState

lemma inv_reachable {st : AggState} (h : Reachable st) : Inv st := by
  obtain ⟨data, rfl⟩ := h
  exact inv_foldState data

/-! ### Counting accepted records per contact key -/

/-- messageCount stored for a key, 0 when the key has no contact yet. -/
def mcount (st : AggState) (k : String) : Nat :=
  ((mget st.contactsMap k).map Contact.messageCount).getD 0

lemma mcount_processRecord_some {st : AggState} {r : UnifiedRecord}
    {k0 : String} (h : stepKeyOf st r = some k0) (k : String) :
    mcount (processRecord st r) k = mcount st k + (if k = k0 then 1 else 0) := by
  obtain ⟨e, _, _, rfl, heq⟩ := processRecord_eq_of_stepKey_some h
  rw [heq]
  unfold mcount
  by_cases hk : k = contactKeyOf e.phone
  · subst hk
    rw [if_pos rfl]
    cases hg : mget st.contactsMap (contactKeyOf e.phone) with
    | some c =>
      rw [applyExtracted_contactsMap_update (searchTermsFor r) hg, mget_mset_self]
      simp [updateContact_messageCount]
    | none =>
      rw [applyExtracted_contactsMap_create (searchTermsFor r) hg, mget_mset_self]
      simp [newContact]
  · rw [if_neg hk]
    cases hg : mget st.contactsMap (contactKeyOf e.phone) with
    | some c =>
      rw [applyExtracted_contactsMap_update (searchTermsFor r) hg,
          mget_mset_ne _ _ _ _ hk]
      rfl
    | none =>
      rw [applyExtracted_contactsMap_create (searchTermsFor r) hg,
          mget_mset_ne _ _ _ _ hk]
      rfl

lemma mem_mkeys_mset {α : Type} (m : List (String × α)) (k0 k : String) (v : α) :
    k ∈ mkeys (mset m k0 v) ↔ k ∈ mkeys m ∨ k = k0 := by
  by_cases hmem : k0 ∈ mkeys m
  · rw [mkeys_mset_of_mem v hmem]
    constructor
    · exact fun hh => Or.inl hh
    · rintro (hh | rfl)
      · exact hh
      · exact hmem
  · rw [mkeys_mset_of_not_mem v hmem, List.mem_append, List.mem_singleton]

lemma mem_keys_processRecord {st : AggState} {r : UnifiedRecord} (k : String) :
    k ∈ mkeys (processRecord st r).contactsMap ↔
      k ∈ mkeys st.contactsMap ∨ stepKeyOf st r = some k := by
  cases hstep : stepKeyOf st r with
  | none =>
    rw [processRecord_eq_of_stepKey_none hstep]
    simp
  | some k0 =>
    obtain ⟨e, _, _, rfl, heq⟩ := processRecord_eq_of_stepKey_some hstep
    rw [heq]
    have hmem : ∀ v, k ∈ mkeys (mset st.contactsMap (contactKeyOf e.phone) v) ↔
        k ∈ mkeys st.contactsMap ∨ k = contactKeyOf e.phone :=
      fun v => mem_mkeys_mset st.contactsMap (contactKeyOf e.phone) k v
    have hgoal : k ∈ mkeys (applyExtracted st e (searchTermsFor r)).contactsMap ↔
        k ∈ mkeys st.contactsMap ∨ k = contactKeyOf e.phone := by
      cases hg : mget st.contactsMap (contactKeyOf e.phone) with
      | some c =>
        rw [applyExtracted_contactsMap_update (searchTermsFor r) hg]
        exact hmem _
      | none =>
        rw [applyExtracted_contactsMap_create (searchTermsFor r) hg]
        exact hmem _
    rw [hgoal]
    simp only [Option.some_inj]
    constructor
    · rintro (hh | rfl)
      · exact Or.inl hh
      · exact Or.inr rfl
    · rintro (hh | rfl)
      · exact Or.inl hh
      · exact Or.inr rfl

lemma mcount_foldl (data : List UnifiedRecord) :
    ∀ (st : AggState) (k : String),
      mcount (data.foldl processRecord st) k
        = mcount st k + (keyTrace st data).count k := by
  induction data with
  | nil =>
    intro st k
    simp [keyTrace_nil]
  | cons r rs ih =>
    intro st k
    rw [List.foldl_cons, ih (processRecord st r) k, keyTrace_cons]
    cases hstep : stepKeyOf st r with
    | none =>
      rw [processRecord_eq_of_stepKey_none hstep]
      rfl
    | some k0 =>
      rw [mcount_processRecord_some hstep k]
      show _ = _ + List.count k (k0 :: keyTrace (processRecord st r) rs)
      rw [List.count_cons]
      by_cases hk : k = k0
      · rw [if_pos hk, if_pos (by simpa using hk.symm)]
        omega
      · rw [if_neg hk, if_neg (by simpa using fun hh => hk hh.symm)]
        omega

lemma mem_keys_foldl (data : List UnifiedRecord) :
    ∀ (st : AggState) (k : String),
      k ∈ mkeys (data.foldl processRecord st).contactsMap ↔
        k ∈ mkeys st.contactsMap ∨ k ∈ keyTrace st data := by
  induction data with
  | nil =>
    intro st k
    simp [keyTrace_nil]
  | cons r rs ih =>
    intro st k
    rw [List.foldl_cons, ih (processRecord st r) k, keyTrace_cons,
        mem_keys_processRecord]
    cases hstep : stepKeyOf st r with
    | none =>
      simp
    | some k0 =>
      show _ ∨ _ ↔ _ ∨ k ∈ k0 :: keyTrace (processRecord st r) rs
      rw [List.mem_cons]
      constructor
      · rintro ((hh | hh) | hh)
        · exact Or.inl hh
        · exact Or.inr (Or.inl (Option.some_inj.mp hh.symm))
        · exact Or.inr (Or.inr hh)
      · rintro (hh | hh | hh)
        · exact Or.inl (Or.inl hh)
        · exact Or.inl (Or.inr (by rw [hh]))
        · exact Or.inr hh

lemma countP_values_eq (m : List (String × Contact))
    (hnd : (mkeys m).Nodup)
    (hent : ∀ p ∈ m, contactKeyOf p.2.phone = p.1) (k : String) :
    (m.map Prod.snd).countP (fun c => decide (contactKeyOf c.phone = k))
      = if k ∈ mkeys m then 1 else 0 := by
  induction m with
  | nil => simp [mkeys]
  | cons p t ih =>
    rw [mkeys, List.map_cons, List.nodup_cons] at hnd
    have hkey : contactKeyOf p.2.phone = p.1 := hent p (List.mem_cons_self p t)
    rw [List.map_cons, List.countP_cons]
    have iht := ih hnd.2 (fun q hq => hent q (List.mem_cons_of_mem p hq))
    by_cases hk : p.1 = k
    · subst hk
      have hnd1 : p.1 ∉ mkeys t := hnd.1
      rw [if_pos (by simpa using hkey), iht, if_neg hnd1,
          if_pos (show p.1 ∈ mkeys (p :: t) by
            rw [mkeys, List.map_cons]
            exact List.mem_cons_self _ _)]
    · rw [if_neg (by simp [hkey, hk]), iht]
      have hmm : k ∈ mkeys (p :: t) ↔ k ∈ mkeys t := by
        rw [mkeys, List.map_cons, List.mem_cons]
        constructor
        · rintro (rfl | hh)
          · exact absurd rfl hk
          · exact hh
        · exact fun hh => Or.inr hh
      by_cases hkt : k ∈ mkeys t
      · rw [if_pos hkt, if_pos (hmm.mpr hkt)]
      · rw [if_neg hkt, if_neg (fun hh => hkt (hmm.mp hh))]

/-! ### Helper: messages of the returned result -/

lemma processMessagesData_messages (data : List UnifiedRecord) (k : String) :
    mget (processMessagesData data).messagesByContact k
      = (mget (foldState data).messagesByContact k).map
          (List.insertionSort msgLE) := by
  have h : (processMessagesData data).messagesByContact
      = (foldState data).messagesByContact.map
          fun p => (p.1, List.insertionSort msgLE p.2) := rfl
  rw [h, mget_map_snd]

lemma processMessagesData_contacts (data : List UnifiedRecord) :
    (processMessagesData data).contacts
      = List.insertionSort contactGE
          ((foldState data).contactsMap.map Prod.snd) := rfl

/-- C2: per-contact message lists returned by processMessagesData are
sorted ascending by timestamp, the sort is stable (messages with equal
timestamps keep the relative order in which the fold appended them, which
is input order), and the lastMessageTime of the contact equals the maximum
timestamp among its messages, with lastMessage the text of a message
carrying that timestamp, regardless of the order the records arrived in. -/
theorem processMessagesData_messageOrder (data : List UnifiedRecord)
    (k : String) (l : List Message) (c : Contact)
    (hl : mget (processMessagesData data).messagesByContact k = some l)
    (hc : mget (foldState data).contactsMap k = some c) :
    l.Pairwise (fun a b => a.timestamp ≤ b.timestamp) ∧
    (∃ raw, mget (foldState data).messagesByContact k = some raw ∧
      l.Perm raw ∧
      ∀ t : Int, l.filter (fun m => decide (m.timestamp = t))
        = raw.filter (fun m => decide (m.timestamp = t))) ∧
    c ∈ (processMessagesData data).contacts ∧
    (∀ m ∈ l, m.timestamp ≤ c.lastMessageTime) ∧
    (∃ m ∈ l, m.timestamp = c.lastMessageTime ∧ m.text = c.lastMessage) := by
  have hInv := inv_foldState data
  obtain ⟨raw, hraw, hcount, hne, hub, m0, hm0, hts, htext⟩ := hInv.coh k c hc
  have hls : l = List.insertionSort msgLE raw := by
    rw [processMessagesData_messages, hraw] at hl
    exact (Option.some_inj.mp hl).symm
  subst hls
  have hperm := List.perm_insertionSort msgLE raw
  refine ⟨List.sorted_insertionSort msgLE raw,
    ⟨raw, hraw, hperm, fun t => filter_insertionSort_ts t raw⟩, ?_, ?_, ?_⟩
  · rw [processMessagesData_contacts]
    exact ((List.perm_insertionSort contactGE _).mem_iff).mpr
      (List.mem_map.mpr ⟨(k, c), mget_mem hc, rfl⟩)
  · intro m hm
    exact hub m (hperm.mem_iff.mp hm)
  · exact ⟨m0, hperm.mem_iff.mpr hm0, hts, htext⟩

/-- C3: every accepted record contributes its contactKey to the trace; the
final registry holds exactly one contact per key of the trace (raw phones
normalizing to the same key collapse into it), and that contact's
messageCount is the number of accepted records that mapped to the key. -/
theorem processMessagesData_keyCollapse (data : List UnifiedRecord)
    (k : String) :
    (processMessagesData data).contacts.countP
        (fun c => decide (contactKeyOf c.phone = k))
      = (if k ∈ keyTrace initState data then 1 else 0) ∧
    mcount (foldState data) k = (keyTrace initState data).count k := by
  have hInv := inv_foldState data
  constructor
  · rw [processMessagesData_contacts,
        (List.perm_insertionSort contactGE _).countP_eq,
        countP_values_eq _ hInv.nodupC (fun p hp => (hInv.entries p hp).2) k]
    have hiff : k ∈ mkeys (foldState data).contactsMap ↔
        k ∈ keyTrace initState data := by
      rw [show foldState data = data.foldl processRecord initState from rfl,
          mem_keys_foldl]
      simp [initState, mkeys]
    by_cases hmem : k ∈ keyTrace initState data
    · rw [if_pos (hiff.mpr hmem), if_pos hmem]
    · rw [if_neg (fun hh => hmem (hiff.mp hh)), if_neg hmem]
  · rw [show foldState data = data.foldl processRecord initState from rfl,
        mcount_foldl data initState k]
    simp [mcount, initState, mget]

/-- C10: the contact registry and the returned messagesByContact map have
the same keys (both without duplicates), and each contact's messageCount is
the length of its non-empty message list. -/
theorem processMessagesData_registryConsistency (data : List UnifiedRecord)
    (k : String) :
    ((mget (foldState data).contactsMap k).isSome
      = (mget (processMessagesData data).messagesByContact k).isSome) ∧
    (∀ c, mget (foldState data).contactsMap k = some c →
      ∃ l, mget (processMessagesData data).messagesByContact k = some l ∧
        c.messageCount = l.length ∧ l ≠ []) ∧
    (mkeys (foldState data).contactsMap).Nodup ∧
    (mkeys (processMessagesData data).messagesByContact).Nodup := by
  have hInv := inv_foldState data
  refine ⟨?_, ?_, hInv.nodupC, ?_⟩
  · rw [processMessagesData_messages, hInv.dom k]
    cases mget (foldState data).messagesByContact k <;> rfl
  · intro c hc
    obtain ⟨l0, hl0, hcount, hne, _, _⟩ := hInv.coh k c hc
    refine ⟨List.insertionSort msgLE l0,
      by rw [processMessagesData_messages, hl0]; rfl, ?_, ?_⟩
    · rw [hcount]
      exact ((List.perm_insertionSort msgLE l0).length_eq).symm
    · intro hnil
      apply hne
      have hlen := (List.perm_insertionSort msgLE l0).length_eq
      rw [hnil] at hlen
      exact List.length_eq_zero.mp hlen.symm
  · have hkeys : mkeys (processMessagesData data).messagesByContact
        = mkeys (foldState data).messagesByContact := by
      show mkeys ((foldState data).messagesByContact.map
        fun p => (p.1, List.insertionSort msgLE p.2)) = _
      unfold mkeys
      rw [List.map_map]
      rfl
    rw [hkeys]
    exact hInv.nodupM

/-! ### Single-step isRead facts for C5 -/

lemma isRead_false_step (st : AggState) (r : UnifiedRecord) (k : String)
    (c : Contact) (hc : mget st.contactsMap k = some c)
    (hf : c.isRead = false) :
    ∃ cc, mget (processRecord st r).contactsMap k = some cc ∧
      cc.isRead = false := by
  cases hstep : stepKeyOf st r with
  | none =>
    rw [processRecord_eq_of_stepKey_none hstep]
    exact ⟨c, hc, hf⟩
  | some k0 =>
    obtain ⟨e, _, _, rfl, heq⟩ := processRecord_eq_of_stepKey_some hstep
    rw [heq]
    by_cases hk : k = contactKeyOf e.phone
    · subst hk
      rw [applyExtracted_contactsMap_update (searchTermsFor r) hc,
          mget_mset_self]
      refine ⟨updateContact c e, rfl, ?_⟩
      rw [updateContact_isRead]
      split_ifs with hcond
      · rfl
      · exact hf
    · cases hg : mget st.contactsMap (contactKeyOf e.phone) with
      | some cc0 =>
        rw [applyExtracted_contactsMap_update (searchTermsFor r) hg,
            mget_mset_ne _ _ _ _ hk]
        exact ⟨c, hc, hf⟩
      | none =>
        rw [applyExtracted_contactsMap_create (searchTermsFor r) hg,
            mget_mset_ne _ _ _ _ hk]
        exact ⟨c, hc, hf⟩

lemma isRead_false_foldl (rs : List UnifiedRecord) :
    ∀ (st : AggState) (k : String) (c : Contact),
      mget st.contactsMap k = some c → c.isRead = false →
      ∃ cc, mget (rs.foldl processRecord st).contactsMap k = some cc ∧
        cc.isRead = false := by
  induction rs with
  | nil => exact fun st k c hc hf => ⟨c, hc, hf⟩
  | cons r rs ih =>
    intro st k c hc hf
    obtain ⟨cc, hcc, hccf⟩ := isRead_false_step st r k c hc hf
    exact ih (processRecord st r) k cc hcc hccf

lemma stepKeyOf_of_accept {st : AggState} {r : UnifiedRecord} {e : Extracted}
    (hE : extract st r = some e) (hp : e.phone ≠ "") :
    stepKeyOf st r = some (contactKeyOf e.phone) := by
  simp only [stepKeyOf, hE]
  rw [if_neg (by simpa using hp)]

/-- C5: the isRead flag is monotone: once an incoming unread record is
folded into a contact it becomes false and stays false for the rest of the
fold; folding an incoming unread record always leaves the flag false; an
outgoing (isFromMe) record never changes the flag of an existing contact
and initialises a freshly created contact with isRead = true. -/
theorem processMessagesData_unreadMonotone :
    (∀ (st : AggState) (rs : List UnifiedRecord) (k : String) (c : Contact),
      mget st.contactsMap k = some c → c.isRead = false →
      ∃ cc, mget (rs.foldl processRecord st).contactsMap k = some cc ∧
        cc.isRead = false) ∧
    (∀ (st : AggState) (r : UnifiedRecord) (e : Extracted),
      extract st r = some e → e.phone ≠ "" → e.isFromMe = false →
      e.isRead = false →
      ∃ cc, mget (processRecord st r).contactsMap (contactKeyOf e.phone)
          = some cc ∧ cc.isRead = false) ∧
    (∀ (st : AggState) (r : UnifiedRecord) (e : Extracted) (k : String)
        (c : Contact),
      extract st r = some e → e.isFromMe = true →
      mget st.contactsMap k = some c →
      ∃ cc, mget (processRecord st r).contactsMap k = some cc ∧
        cc.isRead = c.isRead) ∧
    (∀ (st : AggState) (r : UnifiedRecord) (e : Extracted),
      extract st r = some e → e.phone ≠ "" → e.isFromMe = true →
      mget st.contactsMap (contactKeyOf e.phone) = none →
      ∃ cc, mget (processRecord st r).contactsMap (contactKeyOf e.phone)
          = some cc ∧ cc.isRead = true) := by
  refine ⟨fun st rs k c hc hf => isRead_false_foldl rs st k c hc hf,
    ?_, ?_, ?_⟩
  · intro st r e hE hp hfm hrd
    obtain ⟨e2, hE2, _, hk2, heq⟩ :=
      processRecord_eq_of_stepKey_some (stepKeyOf_of_accept hE hp)
    rw [hE] at hE2
    obtain rfl := Option.some_inj.mp hE2
    rw [heq]
    cases hg : mget st.contactsMap (contactKeyOf e.phone) with
    | some c =>
      rw [applyExtracted_contactsMap_update (searchTermsFor r) hg,
          mget_mset_self]
      refine ⟨updateContact c e, rfl, ?_⟩
      rw [updateContact_isRead, hfm, hrd]
      rfl
    | none =>
      rw [applyExtracted_contactsMap_create (searchTermsFor r) hg,
          mget_mset_self]
      refine ⟨newContact e, rfl, ?_⟩
      show (if !e.isFromMe then e.isRead else true) = false
      rw [hfm, hrd]
      rfl
  · intro st r e k c hE hfm hc
    by_cases hp : e.phone = ""
    · have hnone : stepKeyOf st r = none := by
        simp only [stepKeyOf, hE]
        rw [if_pos (by simpa using hp)]
      rw [processRecord_eq_of_stepKey_none hnone]
      exact ⟨c, hc, rfl⟩
    · obtain ⟨e2, hE2, _, _, heq⟩ :=
        processRecord_eq_of_stepKey_some (stepKeyOf_of_accept hE hp)
      rw [hE] at hE2
      obtain rfl := Option.some_inj.mp hE2
      rw [heq]
      by_cases hk : k = contactKeyOf e.phone
      · subst hk
        rw [applyExtracted_contactsMap_update (searchTermsFor r) hc,
            mget_mset_self]
        refine ⟨updateContact c e, rfl, ?_⟩
        rw [updateContact_isRead, hfm]
        rfl
      · cases hg : mget st.contactsMap (contactKeyOf e.phone) with
        | some cc0 =>
          rw [applyExtracted_contactsMap_update (searchTermsFor r) hg,
              mget_mset_ne _ _ _ _ hk]
          exact ⟨c, hc, rfl⟩
        | none =>
          rw [applyExtracted_contactsMap_create (searchTermsFor r) hg,
              mget_mset_ne _ _ _ _ hk]
          exact ⟨c, hc, rfl⟩
  · intro st r e hE hp hfm hg
    obtain ⟨e2, hE2, _, _, heq⟩ :=
      processRecord_eq_of_stepKey_some (stepKeyOf_of_accept hE hp)
    rw [hE] at hE2
    obtain rfl := Option.some_inj.mp hE2
    rw [heq, applyExtracted_contactsMap_create (searchTermsFor r) hg,
        mget_mset_self]
    refine ⟨newContact e, rfl, ?_⟩
    show (if !e.isFromMe then e.isRead else true) = true
    rw [hfm]
    rfl

/-! ### Concrete witness data -/

def wData2 : List UnifiedRecord :=
  [UnifiedRecord.legacy ⟨1, "from", "7771234", "Amy", 1, "Read", "a"⟩,
   UnifiedRecord.legacy ⟨2, "from", "7771234", "Amy", 3, "Read", "b"⟩,
   UnifiedRecord.legacy ⟨3, "from", "7771234", "Amy", 2, "Read", "c"⟩]

def wList2 : List Message :=
  [{ id := some 1, text := "a", timestamp := 1, isFromMe := false,
     isRead := true, status := MessageStatus.read, isCallLog := false },
   { id := some 3, text := "c", timestamp := 2, isFromMe := false,
     isRead := true, status := MessageStatus.read, isCallLog := false },
   { id := some 2, text := "b", timestamp := 3, isFromMe := false,
     isRead := true, status := MessageStatus.read, isCallLog := false }]

def wContact2 : Contact :=
  { phone := "7771234", name := "Amy", normalizedPhone := "9607771234",
    lastMessage := "b", lastMessageTime := 3, messageCount := 3,
    isRead := true }

/-- Witness for C2 at records timestamped [1, 3, 2] for one contact. -/
theorem processMessagesData_messageOrder_witness :
    wList2.Pairwise (fun a b => a.timestamp ≤ b.timestamp) ∧
    (∃ m ∈ wList2, m.timestamp = wContact2.lastMessageTime ∧
      m.text = wContact2.lastMessage) := by
  have h := processMessagesData_messageOrder wData2 "9607771234" wList2
    wContact2 (by decide) (by decide)
  exact ⟨h.1, h.2.2.2.2⟩

def wData10 : List UnifiedRecord :=
  [UnifiedRecord.legacy ⟨4, "from", "7771234", "Amy", 5, "Unread", "u"⟩]

def wContact10 : Contact :=
  { phone := "7771234", name := "Amy", normalizedPhone := "9607771234",
    lastMessage := "u", lastMessageTime := 5, messageCount := 1,
    isRead := false }

/-- Witness for C10 on a one-record load. -/
theorem processMessagesData_registryConsistency_witness :
    ∃ l, mget (processMessagesData wData10).messagesByContact "9607771234"
        = some l ∧ wContact10.messageCount = l.length ∧ l ≠ [] :=
  (processMessagesData_registryConsistency wData10 "9607771234").2.1
    wContact10 (by decide)

def wData5 : List UnifiedRecord :=
  [UnifiedRecord.legacy ⟨4, "from", "7771234", "Amy", 5, "Unread", "u"⟩]

def wRec5 : UnifiedRecord :=
  UnifiedRecord.legacy ⟨5, "to", "7771234", "Amy", 9, "Read", "later"⟩

/-- Witness for C5: an unread contact stays unread through one more
outgoing record. -/
theorem processMessagesData_unreadMonotone_witness :
    ∃ cc, mget (([wRec5].foldl processRecord (foldState wData5))).contactsMap
        "9607771234" = some cc ∧ cc.isRead = false :=
  processMessagesData_unreadMonotone.1 (foldState wData5) [wRec5]
    "9607771234"
    { phone := "7771234", name := "Amy", normalizedPhone := "9607771234",
      lastMessage := "u", lastMessageTime := 5, messageCount := 1,
      isRead := false }
    (by decide) (by decide)

/-! ### C4: status mapping -/

/-- Counterexample for C4 as frozen: a legacy outgoing record with source
status Sent (lowercased sent) flows through processMessagesData and its
built Message carries status sent, while the claimed table row says an
outgoing record with source status sent yields delivered. -/
theorem statusMapping_counterexample :
    jsToLower "Sent" = "sent" ∧
    mget (processMessagesData
        [UnifiedRecord.legacy ⟨7, "to", "7771234", "Bob", 500, "Sent", "yo"⟩]
      ).messagesByContact "9607771234"
      = some [{ id := some 7, text := "yo", timestamp := 500,
                isFromMe := true, isRead := false,
                status := MessageStatus.sent, isCallLog := false }] ∧
    MessageStatus.sent ≠ MessageStatus.delivered := by
  refine ⟨by decide, by decide, by decide⟩

/-- C4 amended: every accepted record's built Message carries
mapSMSStatusToMessageStatus applied to the derived read flag (Read when
the record is read, Unread otherwise) and the direction, so incoming
read gives read, incoming unread gives delivered, outgoing read gives
read and outgoing unread gives sent; the mapping function itself
implements the spec's full table, but the raw source status string is not
what the unified pipeline passes to it. -/
lemma mapSMS_incoming (s : String) :
    mapSMSStatusToMessageStatus s false
      = (if jsToLower s = "read" then MessageStatus.read
         else if jsToLower s = "unread" then MessageStatus.delivered
         else MessageStatus.delivered) := rfl

lemma mapSMS_outgoing (s : String) :
    mapSMSStatusToMessageStatus s true
      = (if jsToLower s = "sent" then MessageStatus.delivered
         else if jsToLower s = "read" then MessageStatus.read
         else if jsToLower s = "unsent" ∨ jsToLower s = "failed" ∨
             jsToLower s = "error" then MessageStatus.failed
         else MessageStatus.sent) := rfl

/-- C4 amended: every accepted record's built Message carries
mapSMSStatusToMessageStatus applied to the derived read flag (Read when
the record is read, Unread otherwise) and the direction, so incoming
read gives read, incoming unread gives delivered, outgoing read gives
read and outgoing unread gives sent; the mapping function itself
implements the spec's full table, but the raw source status string is not
what the unified pipeline passes to it. -/
theorem statusMapping_amended :
    (∀ (st : AggState) (r : UnifiedRecord) (e : Extracted),
      extract st r = some e → e.phone ≠ "" →
      mget (processRecord st r).messagesByContact (contactKeyOf e.phone)
        = some ((mget st.messagesByContact (contactKeyOf e.phone)).getD []
            ++ [mkMessage e]) ∧
      (mkMessage e).status
        = mapSMSStatusToMessageStatus
            (if e.isRead then "Read" else "Unread") e.isFromMe) ∧
    (∀ s : String, jsToLower s = "read" →
      mapSMSStatusToMessageStatus s false = MessageStatus.read) ∧
    (∀ s : String, jsToLower s ≠ "read" →
      mapSMSStatusToMessageStatus s false = MessageStatus.delivered) ∧
    (∀ s : String, jsToLower s = "sent" →
      mapSMSStatusToMessageStatus s true = MessageStatus.delivered) ∧
    (∀ s : String, jsToLower s = "read" →
      mapSMSStatusToMessageStatus s true = MessageStatus.read) ∧
    (∀ s : String, jsToLower s = "unsent" ∨ jsToLower s = "failed" ∨
        jsToLower s = "error" →
      mapSMSStatusToMessageStatus s true = MessageStatus.failed) ∧
    (∀ s : String,
      jsToLower s ∉ (["sent", "read", "unsent", "failed", "error"] : List String) →
      mapSMSStatusToMessageStatus s true = MessageStatus.sent) ∧
    (mapSMSStatusToMessageStatus "Read" false = MessageStatus.read ∧
     mapSMSStatusToMessageStatus "Unread" false = MessageStatus.delivered ∧
     mapSMSStatusToMessageStatus "Read" true = MessageStatus.read ∧
     mapSMSStatusToMessageStatus "Unread" true = MessageStatus.sent) := by
  refine ⟨?_, ?_, ?_, ?_, ?_, ?_, ?_, by decide⟩
  · intro st r e hE hp
    obtain ⟨e2, hE2, _, _, heq⟩ :=
      processRecord_eq_of_stepKey_some (stepKeyOf_of_accept hE hp)
    rw [hE] at hE2
    obtain rfl := Option.some_inj.mp hE2
    rw [heq, applyExtracted_messagesByContact, mget_mset_self]
    exact ⟨rfl, rfl⟩
  · intro s h
    rw [mapSMS_incoming, if_pos h]
  · intro s h
    rw [mapSMS_incoming, if_neg h]
    by_cases h2 : jsToLower s = "unread"
    · rw [if_pos h2]
    · rw [if_neg h2]
  · intro s h
    rw [mapSMS_outgoing, if_pos h]
  · intro s h
    have hs : jsToLower s ≠ "sent" := by rw [h]; decide
    rw [mapSMS_outgoing, if_neg hs, if_pos h]
  · intro s h
    have hs : jsToLower s ≠ "sent" := by
      rcases h with h | h | h <;> rw [h] <;> decide
    have hr : jsToLower s ≠ "read" := by
      rcases h with h | h | h <;> rw [h] <;> decide
    rw [mapSMS_outgoing, if_neg hs, if_neg hr, if_pos h]
  · intro s h
    simp only [List.mem_cons, List.mem_singleton, not_or] at h
    obtain ⟨h1, h2, h3, h4, h5⟩ := h
    rw [mapSMS_outgoing, if_neg h1, if_neg h2,
        if_neg (show ¬(jsToLower s = "unsent" ∨ jsToLower s = "failed" ∨
          jsToLower s = "error") from fun hh =>
            hh.elim h3 (fun hh2 => hh2.elim h4 h5.1))]

def wExtr4 : Extracted :=
  { phone := "7771234", contactName := "Bob", messageText := "yo",
    timestamp := 500, isFromMe := true, messageId := some 7,
    isRead := false, isCallLog := false }

def wRec4 : UnifiedRecord :=
  UnifiedRecord.legacy ⟨7, "to", "7771234", "Bob", 500, "Sent", "yo"⟩

/-- Witness for the amended C4 at a concrete legacy record. -/
theorem statusMapping_amended_witness :
    mget (processRecord initState wRec4).messagesByContact "9607771234"
        = some ((mget initState.messagesByContact "9607771234").getD []
            ++ [mkMessage wExtr4]) ∧
      (mkMessage wExtr4).status
        = mapSMSStatusToMessageStatus
            (if wExtr4.isRead then "Read" else "Unread") wExtr4.isFromMe :=
  statusMapping_amended.1 initState wRec4 wExtr4 (by decide) (by decide)

/-! ### C7: skip conditions for unified records -/

/-- Counterexample for C7 as frozen: a Call Log record whose Party is Bob
satisfies every skip condition of the claim (the sub-extractor yields no
phone, it is no whitespace-only continuation, and Bob is no bare digit
string), yet the code accepts it and creates a contact. -/
theorem skipConditions_counterexample :
    extractPhoneFromParty "Bob" = none ∧
    hasEmptyFromTest (jsTrim "Bob") = false ∧
    hasEmptyToTest (jsTrim "Bob") = false ∧
    ¬("Bob" ≠ "" ∧ "Bob".data.all Char.isDigit = true) ∧
    (processMessagesData
        [UnifiedRecord.data ⟨"9", "Call Log", "From", 100, "Bob", ""⟩]
      ).contacts.length = 1 := by
  refine ⟨by decide, by decide, by decide, by decide, by decide⟩

/-- C7 amended: a unified record contributes nothing (the state is
unchanged, so no message, no contact and no searchable terms) whenever its
Type is outside SMS Messages, Instant Messages and Call Log; or it is not
a call log and its Description is empty; or its Party yields no phone from
the sub-extractor, is not a whitespace-only From:/To: continuation, and is
not a call log whose Party is non-empty and free of both the From: and the
To: marker (the code accepts any such call-log Party, not only bare digit
strings). -/
theorem skipConditions_amended (st : AggState) (rid rty rdir : String)
    (ts : Int) (party desc : String) :
    (¬(rty = "SMS Messages" ∨ rty = "Instant Messages" ∨ rty = "Call Log") →
      processRecord st
        (UnifiedRecord.data ⟨rid, rty, rdir, ts, party, desc⟩) = st) ∧
    (rty ≠ "Call Log" → desc = "" →
      processRecord st
        (UnifiedRecord.data ⟨rid, rty, rdir, ts, party, desc⟩) = st) ∧
    (extractPhoneFromParty party = none →
      hasEmptyFromTest (jsTrim party) = false →
      hasEmptyToTest (jsTrim party) = false →
      ¬(rty = "Call Log" ∧ party ≠ "" ∧ jsIncludes party "From:" = false ∧
          jsIncludes party "To:" = false) →
      processRecord st
        (UnifiedRecord.data ⟨rid, rty, rdir, ts, party, desc⟩) = st) := by
  refine ⟨?_, ?_, ?_⟩
  · intro h
    have h1 : (rty == "SMS Messages") = false := by
      simp only [beq_eq_false_iff_ne, ne_eq]
      exact fun hh => h (Or.inl hh)
    have h2 : (rty == "Instant Messages") = false := by
      simp only [beq_eq_false_iff_ne, ne_eq]
      exact fun hh => h (Or.inr (Or.inl hh))
    have h3 : (rty == "Call Log") = false := by
      simp only [beq_eq_false_iff_ne, ne_eq]
      exact fun hh => h (Or.inr (Or.inr hh))
    have hE : extract st (UnifiedRecord.data ⟨rid, rty, rdir, ts, party, desc⟩)
        = none := by
      simp only [extract, h1, h2, h3]
      rfl
    simp only [processRecord, hE]
  · intro hcl hdesc
    have h3 : (rty == "Call Log") = false := by
      simp only [beq_eq_false_iff_ne, ne_eq]
      exact hcl
    have hd : (desc == "") = true := by simpa using hdesc
    have hE : extract st (UnifiedRecord.data ⟨rid, rty, rdir, ts, party, desc⟩)
        = none := by
      simp only [extract, h3, hd]
      by_cases hsm : (rty == "SMS Messages" || rty == "Instant Messages") = true
      · simp [hsm]
      · simp [Bool.eq_false_iff.mpr hsm]
    simp only [processRecord, hE]
  · intro hpi hef het hcall
    have hbr : (rty == "Call Log" && party != "" &&
        !jsIncludes party "From:" && !jsIncludes party "To:") = false := by
      rw [Bool.eq_false_iff]
      intro hT
      simp only [Bool.and_eq_true, Bool.not_eq_true', beq_iff_eq,
        bne_iff_ne] at hT
      exact hcall ⟨hT.1.1.1, hT.1.1.2, hT.1.2, hT.2⟩
    have hE : extract st (UnifiedRecord.data ⟨rid, rty, rdir, ts, party, desc⟩)
        = none := by
      simp only [extract, hpi, hef, het, hbr]
      by_cases hcl : (rty == "Call Log") = true
      · simp [hcl, hbr]
      · by_cases hsm : (rty == "SMS Messages" || rty == "Instant Messages") = true
        · by_cases hd : (desc == "") = true
          · simp [hcl, hsm, hd, Bool.eq_false_iff.mpr hcl]
          · simp [Bool.eq_false_iff.mpr hcl, hsm, Bool.eq_false_iff.mpr hd, hbr,
              hpi, hef, het]
        · simp [Bool.eq_false_iff.mpr hcl, Bool.eq_false_iff.mpr hsm]
    simp only [processRecord, hE]

/-- Witness for the amended C7: a Calendar record leaves the state
unchanged. -/
theorem skipConditions_amended_witness :
    processRecord initState
      (UnifiedRecord.data ⟨"1", "Calendar", "From", 0, "From: 7771234", "x"⟩)
      = initState :=
  (skipConditions_amended initState "1" "Calendar" "From" 0 "From: 7771234"
    "x").1 (by decide)

/-! ### C8: match-location lookup -/

lemma findFirstMatch_eq (query : List Char) (messages : List Message) :
    findFirstMatch query messages
      = (messages.find? (msgMatches query)).bind fun m =>
          (firstIndexOf (m.text.data.map Char.toLower) query).map fun idx =>
            { snippet := snippetList m.text.data idx query.length,
              messageId := m.id } := by
  induction messages with
  | nil => rfl
  | cons m ms ih =>
    by_cases hb : (m.text == "") = true
    · have hpm : msgMatches query m = false := by
        unfold msgMatches
        rw [hb]
        rfl
      rw [List.find?_cons_of_neg _ (by simp [hpm]), ← ih]
      simp only [findFirstMatch]
      rw [if_pos hb]
    · cases hidx : firstIndexOf (m.text.data.map Char.toLower) query with
      | some idx =>
        have hpm : msgMatches query m = true := by
          unfold msgMatches
          rw [hidx]
          simp [Bool.eq_false_iff.mpr hb]
        rw [List.find?_cons_of_pos _ hpm, Option.some_bind, hidx,
            Option.map_some']
        simp only [findFirstMatch]
        rw [if_neg hb, hidx]
      | none =>
        have hpm : msgMatches query m = false := by
          unfold msgMatches
          rw [hidx]
          simp
        rw [List.find?_cons_of_neg _ (by simp [hpm]), ← ih]
        simp only [findFirstMatch]
        rw [if_neg hb, hidx]

lemma firstIndexOf_isSome_iff (hay pat : List Char) :
    (firstIndexOf hay pat).isSome = true ↔ pat <:+: hay := by
  induction hay with
  | nil =>
    unfold firstIndexOf
    by_cases hp : pat = []
    · simp [hp]
    · simp [hp, List.infix_nil]
  | cons c t ih =>
    unfold firstIndexOf
    by_cases hp : pat.isPrefixOf (c :: t) = true
    · simp only [if_pos hp]
      constructor
      · intro _
        exact (List.infix_cons_iff).mpr
          (Or.inl (List.isPrefixOf_iff_prefix.mp hp))
      · intro _
        rfl
    · rw [if_neg hp]
      rw [Option.isSome_map']
      rw [ih, List.infix_cons_iff]
      constructor
      · exact fun hh => Or.inr hh
      · rintro (hh | hh)
        · exact absurd (List.isPrefixOf_iff_prefix.mpr hh) hp
        · exact hh

lemma snippetList_shape (text : List Char) (idx qlen : Nat) :
    ∃ core, snippetList text idx qlen
        = (if 20 < idx then ['…'] else []) ++ core
          ++ (if idx + qlen + 20 < text.length then ['…'] else [])
      ∧ core.length ≤ qlen + 40 := by
  refine ⟨(text.drop (idx - 20)).take
    (min text.length (idx + qlen + 20) - (idx - 20)), ?_, ?_⟩
  · simp only [snippetList]
    congr 1
    · congr 1
      by_cases h : 20 < idx
      · rw [if_pos h, if_pos (show 0 < idx - 20 by omega)]
      · rw [if_neg h, if_neg (show ¬0 < idx - 20 by omega)]
    · by_cases h2 : idx + qlen + 20 < text.length
      · rw [if_pos h2, if_pos (show min text.length (idx + qlen + 20)
            < text.length by omega)]
      · rw [if_neg h2, if_neg (show ¬min text.length (idx + qlen + 20)
            < text.length by omega)]
  · rw [List.length_take]
    omega

/-- C8: for a non-empty query, the lookup reports the first message of the
list whose lowercased body contains the query, with the message id and a
snippet of at most 20 context characters on each side of the match plus
ellipsis markers exactly when cut; when no body matches it falls back to
the most recent (last) message; for a 5-character query matching at offset
50 of a 100-character text the snippet is a leading ellipsis, a 45
character core, and an ellipsis. -/
theorem matchLocation_lookup (query : List Char) (messages : List Message)
    (hq : query ≠ []) :
    (∀ m, messages.find? (msgMatches query) = some m →
      ∃ idx, firstIndexOf (m.text.data.map Char.toLower) query = some idx ∧
        matchMetaFor query messages
          = some { snippet := snippetList m.text.data idx query.length,
                   messageId := m.id } ∧
        query <:+: m.text.data.map Char.toLower ∧
        ∃ core, snippetList m.text.data idx query.length
            = (if 20 < idx then ['…'] else []) ++ core
              ++ (if idx + query.length + 20 < m.text.data.length
                  then ['…'] else [])
          ∧ core.length ≤ query.length + 40) ∧
    (messages.find? (msgMatches query) = none →
      ∀ lastMsg, messages.getLast? = some lastMsg → lastMsg.text ≠ "" →
        matchMetaFor query messages
          = some { snippet := fallbackSnippet lastMsg.text.data,
                   messageId := lastMsg.id }) ∧
    (∀ text : List Char, text.length = 100 →
      firstIndexOf (text.map Char.toLower) query = some 50 →
      query.length = 5 →
      ∃ core, snippetList text 50 query.length = '…' :: (core ++ ['…']) ∧
        core.length = 45) := by
  refine ⟨?_, ?_, ?_⟩
  · intro m hfind
    have hpm : msgMatches query m = true := List.find?_some hfind
    unfold msgMatches at hpm
    rw [Bool.and_eq_true] at hpm
    obtain ⟨idx, hidx⟩ := Option.isSome_iff_exists.mp hpm.2
    refine ⟨idx, hidx, ?_, ?_, ?_⟩
    · simp only [matchMetaFor, findFirstMatch_eq, hfind, Option.some_bind,
        hidx, Option.map_some']
    · rw [← firstIndexOf_isSome_iff, hidx]
      rfl
    · obtain ⟨core, hcore, hlen⟩ :=
        snippetList_shape m.text.data idx query.length
      exact ⟨core, hcore, hlen⟩
  · intro hfind lastMsg hlast hne
    simp only [matchMetaFor, findFirstMatch_eq, hfind, Option.none_bind,
      hlast]
    rw [if_neg (by simpa using hne)]
  · intro text hlen _ hql
    refine ⟨(text.drop 30).take 45, ?_, ?_⟩
    · simp only [snippetList]
      rw [hql, hlen]
      norm_num
    · rw [List.length_take, List.length_drop, hlen]
      decide

/-- Witness for C8 on a one-message contact matching the query world. -/
theorem matchLocation_lookup_witness :
    ∃ idx, firstIndexOf
        (("hello world" : String).data.map Char.toLower) "world".data
        = some idx ∧
      matchMetaFor "world".data
          [{ id := some 1, text := "hello world", timestamp := 5,
             isFromMe := false, isRead := true,
             status := MessageStatus.read, isCallLog := false }]
        = some { snippet := snippetList ("hello world" : String).data idx
                   ("world".data).length,
                 messageId := some 1 } ∧
      ("world".data <:+: ("hello world" : String).data.map Char.toLower) ∧
      ∃ core, snippetList ("hello world" : String).data idx
            ("world".data).length
          = (if 20 < idx then ['…'] else []) ++ core
            ++ (if idx + ("world".data).length + 20
                  < ("hello world" : String).data.length then ['…'] else [])
        ∧ core.length ≤ ("world".data).length + 40 :=
  (matchLocation_lookup "world".data
    [{ id := some 1, text := "hello world", timestamp := 5,
       isFromMe := false, isRead := true,
       status := MessageStatus.read, isCallLog := false }]
    (by decide)).1
    { id := some 1, text := "hello world", timestamp := 5,
      isFromMe := false, isRead := true,
      status := MessageStatus.read, isCallLog := false }
    (by decide)

/-! ### C6: whitespace-only From:/To: continuation records -/

lemma dropWhile_ws_of_all {l : List Char} (h : l.all jsWhitespace = true) :
    l.dropWhile jsWhitespace = [] :=
  List.dropWhile_eq_nil_iff.mpr (List.all_eq_true.mp h)

lemma all_ws_reverse {ws : List Char} (hws : ws.all jsWhitespace = true) :
    ws.reverse.all jsWhitespace = true := by
  rw [List.all_eq_true]
  intro x hx
  exact List.all_eq_true.mp hws x (List.mem_reverse.mp hx)

lemma trimList_From_ws {ws : List Char} (hws : ws.all jsWhitespace = true) :
    trimList ('F' :: 'r' :: 'o' :: 'm' :: ':' :: ws)
      = ['F', 'r', 'o', 'm', ':'] := by
  unfold trimList
  rw [List.dropWhile_cons, show jsWhitespace 'F' = false from by decide,
      if_neg (by simp),
      show ('F' :: 'r' :: 'o' :: 'm' :: ':' :: ws)
        = ['F', 'r', 'o', 'm', ':'] ++ ws from rfl,
      List.reverse_append, List.dropWhile_append,
      dropWhile_ws_of_all (all_ws_reverse hws)]
  decide

lemma trimList_To_ws {ws : List Char} (hws : ws.all jsWhitespace = true) :
    trimList ('T' :: 'o' :: ':' :: ws) = ['T', 'o', ':'] := by
  unfold trimList
  rw [List.dropWhile_cons, show jsWhitespace 'T' = false from by decide,
      if_neg (by simp),
      show ('T' :: 'o' :: ':' :: ws) = ['T', 'o', ':'] ++ ws from rfl,
      List.reverse_append, List.dropWhile_append,
      dropWhile_ws_of_all (all_ws_reverse hws)]
  decide

lemma wsStarDotPlus_all_ws {ws : List Char} (h : ws.all jsWhitespace = true) :
    wsStarDotPlus ws = none ∨
      ∃ cap, wsStarDotPlus ws = some cap ∧ cap.all jsWhitespace = true := by
  induction ws with
  | nil => exact Or.inl rfl
  | cons c cs ih =>
    rw [List.all_cons, Bool.and_eq_true] at h
    rcases ih h.2 with hnone | ⟨cap, hcap, hcapws⟩
    · by_cases hl : isLineTerm c = true
      · exact Or.inl (by simp [wsStarDotPlus, h.1, hnone, hl])
      · refine Or.inr ⟨(c :: cs).takeWhile (fun x => !isLineTerm x),
          by simp [wsStarDotPlus, h.1, hnone, hl], ?_⟩
        rw [List.all_eq_true]
        intro x hx
        have hxm : x ∈ c :: cs := (List.takeWhile_sublist _).subset hx
        rcases List.mem_cons.mp hxm with rfl | hxm
        · exact h.1
        · exact List.all_eq_true.mp h.2 x hxm
    · exact Or.inr ⟨cap, by simp [wsStarDotPlus, h.1, hcap], hcapws⟩

lemma tryMarkerHere_none_of_ne {c : Char} (cs : List Char)
    (hF : c ≠ 'F') (hT : c ≠ 'T') :
    tryMarkerHere (c :: cs) = none := by
  have h1 : ¬ ((['F', 'r', 'o', 'm', ':'] : List Char).isPrefixOf
      (c :: cs) = true) := fun hpre =>
    hF ((List.cons_prefix_cons.mp (List.isPrefixOf_iff_prefix.mp hpre)).1).symm
  have h2 : ¬ ((['T', 'o', ':'] : List Char).isPrefixOf
      (c :: cs) = true) := fun hpre =>
    hT ((List.cons_prefix_cons.mp (List.isPrefixOf_iff_prefix.mp hpre)).1).symm
  unfold tryMarkerHere
  rw [if_neg h1, if_neg h2]

lemma findMarkerCapture_cons (c : Char) (cs : List Char) :
    findMarkerCapture (c :: cs)
      = match tryMarkerHere (c :: cs) with
        | some cap => some cap
        | none => findMarkerCapture cs := rfl

lemma findMarkerCapture_cons_of_none {c : Char} {cs : List Char}
    (h : tryMarkerHere (c :: cs) = none) :
    findMarkerCapture (c :: cs) = findMarkerCapture cs := by
  rw [findMarkerCapture_cons, h]

lemma findMarkerCapture_cons_of_some {c : Char} {cs cap : List Char}
    (h : tryMarkerHere (c :: cs) = some cap) :
    findMarkerCapture (c :: cs) = some cap := by
  rw [findMarkerCapture_cons, h]

lemma findMarkerCapture_all_ws {l : List Char} (h : l.all jsWhitespace = true) :
    findMarkerCapture l = none := by
  induction l with
  | nil => rfl
  | cons c cs ih =>
    rw [List.all_cons, Bool.and_eq_true] at h
    have hF : c ≠ 'F' := fun hc => by
      rw [hc] at h
      exact absurd h.1 (by decide)
    have hT : c ≠ 'T' := fun hc => by
      rw [hc] at h
      exact absurd h.1 (by decide)
    rw [findMarkerCapture_cons_of_none (tryMarkerHere_none_of_ne cs hF hT),
        ih h.2]

lemma trimList_all_ws {l : List Char} (h : l.all jsWhitespace = true) :
    trimList l = [] := by
  unfold trimList
  rw [dropWhile_ws_of_all h]
  rfl

lemma extractPhone_From_ws {ws : List Char} (hws : ws.all jsWhitespace = true) :
    extractPhoneFromParty (String.mk ('F' :: 'r' :: 'o' :: 'm' :: ':' :: ws))
      = none := by
  unfold extractPhoneFromParty
  rw [if_neg (by simp [String.ext_iff]),
      show (String.mk ('F' :: 'r' :: 'o' :: 'm' :: ':' :: ws)).data
        = 'F' :: 'r' :: 'o' :: 'm' :: ':' :: ws from rfl]
  have hpref : (['F', 'r', 'o', 'm', ':'] : List Char).isPrefixOf
      ('F' :: 'r' :: 'o' :: 'm' :: ':' :: ws) = true := by
    simp [List.isPrefixOf]
  have htm : tryMarkerHere ('F' :: 'r' :: 'o' :: 'm' :: ':' :: ws)
      = wsStarDotPlus ws := by
    unfold tryMarkerHere
    rw [if_pos hpref]
    rfl
  rcases wsStarDotPlus_all_ws hws with hnone | ⟨cap, hcap, hcapws⟩
  · rw [findMarkerCapture_cons_of_none (htm.trans hnone),
        findMarkerCapture_cons_of_none
          (tryMarkerHere_none_of_ne _ (by decide) (by decide)),
        findMarkerCapture_cons_of_none
          (tryMarkerHere_none_of_ne _ (by decide) (by decide)),
        findMarkerCapture_cons_of_none
          (tryMarkerHere_none_of_ne _ (by decide) (by decide)),
        findMarkerCapture_cons_of_none
          (tryMarkerHere_none_of_ne _ (by decide) (by decide)),
        findMarkerCapture_all_ws hws]
  · rw [findMarkerCapture_cons_of_some (htm.trans hcap)]
    simp only [trimList_all_ws hcapws]
    rfl

lemma extractPhone_To_ws {ws : List Char} (hws : ws.all jsWhitespace = true) :
    extractPhoneFromParty (String.mk ('T' :: 'o' :: ':' :: ws)) = none := by
  unfold extractPhoneFromParty
  rw [if_neg (by simp [String.ext_iff]),
      show (String.mk ('T' :: 'o' :: ':' :: ws)).data
        = 'T' :: 'o' :: ':' :: ws from rfl]
  have hnotF : ¬ ((['F', 'r', 'o', 'm', ':'] : List Char).isPrefixOf
      ('T' :: 'o' :: ':' :: ws) = true) := fun hpre => by
    have := (List.cons_prefix_cons.mp (List.isPrefixOf_iff_prefix.mp hpre)).1
    exact absurd this (by decide)
  have hpref : (['T', 'o', ':'] : List Char).isPrefixOf
      ('T' :: 'o' :: ':' :: ws) = true := by
    simp [List.isPrefixOf]
  have htm : tryMarkerHere ('T' :: 'o' :: ':' :: ws) = wsStarDotPlus ws := by
    unfold tryMarkerHere
    rw [if_neg hnotF, if_pos hpref]
    rfl
  rcases wsStarDotPlus_all_ws hws with hnone | ⟨cap, hcap, hcapws⟩
  · rw [findMarkerCapture_cons_of_none (htm.trans hnone),
        findMarkerCapture_cons_of_none
          (tryMarkerHere_none_of_ne _ (by decide) (by decide)),
        findMarkerCapture_cons_of_none
          (tryMarkerHere_none_of_ne _ (by decide) (by decide)),
        findMarkerCapture_all_ws hws]
  · rw [findMarkerCapture_cons_of_some (htm.trans hcap)]
    simp only [trimList_all_ws hcapws]
    rfl

/-- Party value of a continuation row: exactly the From:/To: marker followed
by whitespace only. -/
def contParty (isFrom : Bool) (ws : List Char) : String :=
  String.mk ((if isFrom then ['F', 'r', 'o', 'm', ':'] else ['T', 'o', ':']) ++ ws)

lemma contParty_trim (isFrom : Bool) (ws : List Char)
    (hws : ws.all jsWhitespace = true) :
    jsTrim (contParty isFrom ws) = if isFrom then "From:" else "To:" := by
  cases isFrom
  · show jsTrim (String.mk (['T', 'o', ':'] ++ ws)) = "To:"
    unfold jsTrim
    rw [show (String.mk (['T', 'o', ':'] ++ ws)).data
          = 'T' :: 'o' :: ':' :: ws from rfl,
        trimList_To_ws hws]
  · show jsTrim (String.mk (['F', 'r', 'o', 'm', ':'] ++ ws)) = "From:"
    unfold jsTrim
    rw [show (String.mk (['F', 'r', 'o', 'm', ':'] ++ ws)).data
          = 'F' :: 'r' :: 'o' :: 'm' :: ':' :: ws from rfl,
        trimList_From_ws hws]

lemma contParty_hasEmptyFrom (isFrom : Bool) (ws : List Char)
    (hws : ws.all jsWhitespace = true) :
    hasEmptyFromTest (jsTrim (contParty isFrom ws)) = isFrom := by
  rw [contParty_trim isFrom ws hws]
  cases isFrom <;> decide

lemma contParty_hasEmptyTo (isFrom : Bool) (ws : List Char)
    (hws : ws.all jsWhitespace = true) :
    hasEmptyToTest (jsTrim (contParty isFrom ws)) = !isFrom := by
  rw [contParty_trim isFrom ws hws]
  cases isFrom <;> decide

lemma contParty_extractPhone (isFrom : Bool) (ws : List Char)
    (hws : ws.all jsWhitespace = true) :
    extractPhoneFromParty (contParty isFrom ws) = none := by
  cases isFrom
  · show extractPhoneFromParty (String.mk (['T', 'o', ':'] ++ ws)) = none
    exact extractPhone_To_ws hws
  · show extractPhoneFromParty (String.mk (['F', 'r', 'o', 'm', ':'] ++ ws)) = none
    exact extractPhone_From_ws hws

lemma extract_cont_none (st : AggState) (rid rty rdir : String) (ts : Int)
    (desc : String) (isFrom : Bool) (ws : List Char)
    (hty : rty = "SMS Messages" ∨ rty = "Instant Messages" ∨ rty = "Call Log")
    (hdesc : rty ≠ "Call Log" → desc ≠ "")
    (hws : ws.all jsWhitespace = true)
    (hlk : st.lastContactKey = none) :
    extract st (UnifiedRecord.data
      ⟨rid, rty, rdir, ts, contParty isFrom ws, desc⟩) = none := by
  have h1 := contParty_extractPhone isFrom ws hws
  have h2 := contParty_hasEmptyFrom isFrom ws hws
  have h3 := contParty_hasEmptyTo isFrom ws hws
  rcases hty with rfl | rfl | rfl
  · have hd : (desc == "") = false :=
      beq_eq_false_iff_ne.mpr (hdesc (by decide))
    simp [extract, h1, h2, h3, hd, hlk, Bool.or_not_self]
  · have hd : (desc == "") = false :=
      beq_eq_false_iff_ne.mpr (hdesc (by decide))
    simp [extract, h1, h2, h3, hd, hlk, Bool.or_not_self]
  · simp [extract, h1, h2, h3, hlk, Bool.or_not_self]

lemma extract_cont_some (st : AggState) (rid rty rdir : String) (ts : Int)
    (desc : String) (isFrom : Bool) (ws : List Char) (key : String)
    (existing : Contact)
    (hty : rty = "SMS Messages" ∨ rty = "Instant Messages" ∨ rty = "Call Log")
    (hdesc : rty ≠ "Call Log" → desc ≠ "")
    (hws : ws.all jsWhitespace = true)
    (hlk : st.lastContactKey = some key)
    (hgc : mget st.contactsMap key = some existing) :
    extract st (UnifiedRecord.data
      ⟨rid, rty, rdir, ts, contParty isFrom ws, desc⟩)
      = some { phone := existing.phone, contactName := existing.name,
               messageText := desc, timestamp := ts,
               isFromMe := rdir == "To" || isFrom,
               messageId := parseIntJs rid,
               isRead := true,
               isCallLog := rty == "Call Log" } := by
  have h1 := contParty_extractPhone isFrom ws hws
  have h2 := contParty_hasEmptyFrom isFrom ws hws
  have h3 := contParty_hasEmptyTo isFrom ws hws
  rcases hty with rfl | rfl | rfl
  · have hd : (desc == "") = false :=
      beq_eq_false_iff_ne.mpr (hdesc (by decide))
    simp [extract, h1, h2, h3, hd, hlk, hgc, Bool.or_not_self]
  · have hd : (desc == "") = false :=
      beq_eq_false_iff_ne.mpr (hdesc (by decide))
    simp [extract, h1, h2, h3, hd, hlk, hgc, Bool.or_not_self]
  · simp [extract, h1, h2, h3, hlk, hgc, Bool.or_not_self]

lemma applyExtracted_at_key (st : AggState) (e : Extracted)
    (terms : List String) (k : String) (c : Contact)
    (hkey : contactKeyOf e.phone = k)
    (hgc : mget st.contactsMap k = some c) :
    mget (applyExtracted st e terms).messagesByContact k
      = some ((mget st.messagesByContact k).getD [] ++ [mkMessage e]) ∧
    mget (applyExtracted st e terms).contactsMap k
      = some (updateContact c e) ∧
    (applyExtracted st e terms).lastContactKey = some k := by
  subst hkey
  refine ⟨?_, ?_, ?_⟩
  · rw [applyExtracted_messagesByContact, mget_mset_self]
  · rw [applyExtracted_contactsMap_update terms hgc, mget_mset_self]
  · rw [applyExtracted_lastContactKey]

/-- C6: a unified record whose Party is exactly the From: or To: marker
followed by whitespace only is attributed to the most recently attributed
contact: with no prior attributed contact the record leaves the state
unchanged; with prior key k holding contact c, the record appends to k's
message list a message built from c's phone and name, with isFromMe = true
for an empty From: marker and isFromMe = (Direction == To) for an empty
To: marker, keeps c's phone and name, and leaves k the last attributed
key. -/
theorem continuationAttribution (st : AggState) (hre : Reachable st)
    (rid rty rdir : String) (ts : Int) (desc : String) (isFrom : Bool)
    (ws : List Char)
    (hty : rty = "SMS Messages" ∨ rty = "Instant Messages" ∨ rty = "Call Log")
    (hdesc : rty ≠ "Call Log" → desc ≠ "")
    (hws : ws.all jsWhitespace = true) :
    (st.lastContactKey = none →
      processRecord st (UnifiedRecord.data
        ⟨rid, rty, rdir, ts, contParty isFrom ws, desc⟩) = st) ∧
    (∀ k c, st.lastContactKey = some k → mget st.contactsMap k = some c →
      mget (processRecord st (UnifiedRecord.data
          ⟨rid, rty, rdir, ts, contParty isFrom ws, desc⟩)).messagesByContact k
        = some ((mget st.messagesByContact k).getD []
            ++ [{ id := parseIntJs rid, text := desc, timestamp := ts,
                  isFromMe := rdir == "To" || isFrom, isRead := true,
                  status := mapSMSStatusToMessageStatus "Read"
                    (rdir == "To" || isFrom),
                  isCallLog := rty == "Call Log" }]) ∧
      (∃ cNew, mget (processRecord st (UnifiedRecord.data
            ⟨rid, rty, rdir, ts, contParty isFrom ws, desc⟩)).contactsMap k
          = some cNew ∧ cNew.phone = c.phone ∧ cNew.name = c.name) ∧
      (processRecord st (UnifiedRecord.data
          ⟨rid, rty, rdir, ts, contParty isFrom ws, desc⟩)).lastContactKey
        = some k) := by
  have inv := inv_reachable hre
  refine ⟨fun hlk => ?_, fun k c hlk hgc => ?_⟩
  · simp only [processRecord,
      extract_cont_none st rid rty rdir ts desc isFrom ws hty hdesc hws hlk]
  · obtain ⟨hcne, hkc⟩ := inv.entries (k, c) (mget_mem hgc)
    have hE := extract_cont_some st rid rty rdir ts desc isFrom ws k c
      hty hdesc hws hlk hgc
    have hpr : processRecord st (UnifiedRecord.data
          ⟨rid, rty, rdir, ts, contParty isFrom ws, desc⟩)
        = applyExtracted st
            { phone := c.phone, contactName := c.name, messageText := desc,
              timestamp := ts, isFromMe := rdir == "To" || isFrom,
              messageId := parseIntJs rid, isRead := true,
              isCallLog := rty == "Call Log" }
            (searchTermsFor (UnifiedRecord.data
              ⟨rid, rty, rdir, ts, contParty isFrom ws, desc⟩)) := by
      simp only [processRecord, hE]
      rw [if_neg (by simp [hcne])]
    obtain ⟨hm, hcm, hlast⟩ := applyExtracted_at_key st
      { phone := c.phone, contactName := c.name, messageText := desc,
        timestamp := ts, isFromMe := rdir == "To" || isFrom,
        messageId := parseIntJs rid, isRead := true,
        isCallLog := rty == "Call Log" }
      (searchTermsFor (UnifiedRecord.data
        ⟨rid, rty, rdir, ts, contParty isFrom ws, desc⟩)) k c hkc hgc
    refine ⟨?_, ?_, ?_⟩
    · rw [hpr]
      exact hm
    · rw [hpr]
      exact ⟨updateContact c _, hcm, updateContact_phone c _,
             updateContact_name c _⟩
    · rw [hpr]
      exact hlast

def wRec6 : UnifiedRecord :=
  UnifiedRecord.data
    ⟨"11", "SMS Messages", "From", 500, "From: 7771234 Amy", "part one"⟩

def wCont6 : UnifiedRecord :=
  UnifiedRecord.data
    ⟨"12", "SMS Messages", "", 600, contParty true [' '], "part two"⟩

def wContact6 : Contact :=
  { phone := "7771234", name := "Amy", normalizedPhone := "9607771234",
    lastMessage := "part one", lastMessageTime := 500, messageCount := 1,
    isRead := true }

theorem continuationAttribution_witness :
    mget (processRecord (foldState [wRec6]) wCont6).messagesByContact
        "9607771234"
      = some ((mget (foldState [wRec6]).messagesByContact "9607771234").getD []
          ++ [{ id := parseIntJs "12", text := "part two", timestamp := 600,
                isFromMe := ("" == "To") || true, isRead := true,
                status := mapSMSStatusToMessageStatus "Read"
                  (("" == "To") || true),
                isCallLog := ("SMS Messages" == "Call Log") }]) ∧
    (∃ cNew, mget (processRecord (foldState [wRec6]) wCont6).contactsMap
          "9607771234"
        = some cNew ∧ cNew.phone = wContact6.phone ∧
          cNew.name = wContact6.name) ∧
    (processRecord (foldState [wRec6]) wCont6).lastContactKey
      = some "9607771234" :=
  (continuationAttribution (foldState [wRec6]) ⟨[wRec6], rfl⟩
      "12" "SMS Messages" "" 600 "part two" true [' ']
      (Or.inl rfl) (fun _ => by decide) (by decide)).2
    "9607771234" wContact6 (by decide) (by decide)

end BroSms
